import Mathlib

/-
Verification of the line-wrapping checker (flake8_balanced_wrapping.py).

The Python module walks a parsed syntax tree and reports constructs whose
sibling elements are wrapped across lines in a way that is neither
"all on one line" nor "one element per line".  The definitions below are a
shallow embedding of that module: positions, the line grouper
(`_get_nodes_by_line_number`), the line summary (`_summarise_lines`),
the per-construct checkers (the `visit_*` methods of `Visitor`), and the
error model (`UnderWrappedError` / `OverWrappedError`).

Nodes and tokens are produced by an external parser, so a node is modelled
by the data the checker actually consumes: its start/end positions (from its
first/last token), per-construct child spans, and the token-derived anchor
positions (for example the position just after the opening parenthesis that
follows a `class`/`def` keyword or a callee).
-/

namespace BalancedWrapping

/-- Source position: 1-based line, 0-based column.  The column is an `Int`
because the grouper forms `end_col - 1` (`just_before_end_pos`). -/
structure Position where
  line : Nat
  col : Int
deriving DecidableEq, Repr

/-- Extent of a node: the start of its first token and the end of its last
token (`Position.from_node_start` / `_last_token(node).end`). -/
structure Span where
  startPos : Position
  endPos : Position
deriving DecidableEq, Repr

/-- Entry of a line bucket: either the containing node itself (`node` in
`_get_nodes_by_line_number`) or the i-th element of the child list handed to
the grouper. -/
inductive GElem where
  | self : GElem
  | child : Nat → GElem
deriving DecidableEq, Repr

/-- Insertion-ordered mapping from line number to the list of entries on that
line; models the `collections.defaultdict(list)` used by the grouper. -/
abbrev LineGroup := List (Nat × List GElem)

/-- Append `e` to the bucket for `line`, creating the bucket at the end of the
insertion order when absent (defaultdict `by_line_no[line].append(e)`). -/
def addToBucket : LineGroup → Nat → GElem → LineGroup
  | [], line, e => [(line, [e])]
  | (l, xs) :: rest, line, e =>
      if l = line then (l, xs ++ [e]) :: rest
      else (l, xs) :: addToBucket rest line e

/-- Bucket stored for `line` (empty when the line has no bucket). -/
def bucketAt (g : LineGroup) (line : Nat) : List GElem :=
  ((g.find? (fun p => p.1 == line)).map Prod.snd).getD []

/-- Translation of `get_start_position`. -/
def get_start_position (x : Span) : Position := x.startPos

/-- Translation of `get_end_position` (`_last_token(node).end`). -/
def get_end_position (x : Span) : Position := x.endPos

/-- Translation of `get_end_positions`; `get_end_position` never returns
`None`, so the source's filter keeps every element. -/
def get_end_positions (nodes : List Span) : List Position :=
  nodes.map get_end_position

/-- Add each child (tagged with its index, starting at `i`) to the bucket of
its start line; models the `for x in nodes` loop of the grouper. -/
def addChildrenFrom (g : LineGroup) (i : Nat) : List Span → LineGroup
  | [] => g
  | x :: xs =>
      addChildrenFrom (addToBucket g (get_start_position x).line (GElem.child i)) (i + 1) xs

/-- Translation of `Visitor._get_nodes_by_line_number`. -/
def get_nodes_by_line_number (node : Span) (reference : Position) (nodes : List Span)
    (include_node_end include_node_start : Bool) : LineGroup :=
  let g0 : LineGroup :=
    if include_node_start then addToBucket [] reference.line GElem.self else []
  let g1 := addChildrenFrom g0 0 nodes
  if include_node_end then
    let end_line := node.endPos.line
    let just_before_end_pos : Position := ⟨end_line, node.endPos.col - 1⟩
    let end_positions := get_end_positions nodes
    -- Allow hugging, but otherwise add the containing node via its end line too.
    if just_before_end_pos ∉ end_positions ∨ end_line ∈ g1.map Prod.fst then
      addToBucket g1 end_line GElem.self
    else g1
  else g1

/-- Translation of `PositionsSummary`. -/
structure PositionsSummary where
  is_single_line : Bool
  is_single_column : Bool
  most_common_line_number : Nat
deriving DecidableEq, Repr

/-- Translation of `PositionsSummary.is_single_line_or_column`. -/
def PositionsSummary.is_single_line_or_column (s : PositionsSummary) : Bool :=
  s.is_single_line || s.is_single_column

/-- Translation of `Counter(counts).most_common(1)` on an insertion-ordered
count list: the entry with the largest count, ties resolved in favour of the
first such entry (CPython's `heapq.nlargest(1, ...)` is `max`, which keeps
the first maximum).  The source raises on an empty dict; the `(0, 0)` result
for `[]` is never consulted (every summarised group is proved non-empty). -/
def most_common_one : List (Nat × Nat) → Nat × Nat
  | [] => (0, 0)
  | p :: rest => rest.foldl (fun best q => if best.2 < q.2 then q else best) p

/-- Translation of `Visitor._summarise_lines`. -/
def summarise_lines (g : LineGroup) : PositionsSummary :=
  let counts : List (Nat × Nat) := g.map (fun p => (p.1, p.2.length))
  let m := most_common_one counts
  { is_single_line := counts.length == 1
    is_single_column := m.2 == 1
    most_common_line_number := m.1 }

/-- Kind of a reported error: `UnderWrappedError` or `OverWrappedError`. -/
inductive ErrKind where
  | under : ErrKind
  | over : ErrKind
deriving DecidableEq, Repr

/-- Construct-specific data of a visited node, as consumed by the matching
`visit_*` method.  Token-derived anchors (`openParenEnd`, `prevTokenStart`,
`nextTokenEnd`, the tuple's delimiter test) are part of the node data since
they come from the token stream, not the tree. -/
inductive ConstructData where
  | classDef (openParenEnd : Position) (bases : List Span) (keywords : List Span)
  | functionDef (isAsync : Bool) (openParenEnd : Position)
      (posonlyargs : List Span) (args : List Span) (vararg : Option Span)
      (kwonlyargs : List Span) (kwarg : Option Span) (returns : Option Span)
  | call (openParenEnd : Position) (args : List Span) (keywords : List Span)
  | dict (keys : List (Option Span)) (values : List Span)
  | ifExp (prevTokenStart : Position) (body : Span) (test : Span) (orelse : Span)
      (isParenthesised : Bool) (nextTokenEnd : Position)
  | joinedStr
  | listLit (elts : List Span)
  | tupleLit (elts : List Span) (firstTokenIsOpenParen lastTokenIsCloseParen : Bool)
  | setLit (elts : List Span)
  | compare (left : Span) (comparators : List Span)
  | comprehension (target : Span) (iter : Span)
  | other
deriving DecidableEq, Repr

/-- Python class name of the node (`type(self.node).__name__`), used in error
messages. -/
def constructName : ConstructData → String
  | ConstructData.classDef _ _ _ => "ClassDef"
  | ConstructData.functionDef isAsync _ _ _ _ _ _ _ =>
      if isAsync then "AsyncFunctionDef" else "FunctionDef"
  | ConstructData.call _ _ _ => "Call"
  | ConstructData.dict _ _ => "Dict"
  | ConstructData.ifExp _ _ _ _ _ _ => "IfExp"
  | ConstructData.joinedStr => "JoinedStr"
  | ConstructData.listLit _ => "List"
  | ConstructData.tupleLit _ _ _ => "Tuple"
  | ConstructData.setLit _ => "Set"
  | ConstructData.compare _ _ => "Compare"
  | ConstructData.comprehension _ _ => "comprehension"
  | ConstructData.other => "Other"

/-- A visited node: its span plus its construct data. -/
structure NodeData where
  span : Span
  data : ConstructData
deriving DecidableEq, Repr

/-- A reported violation: the error class, the offending node, and the
conflicting positions (`conflicts` of `UnderWrappedError`, `positions` of
`OverWrappedError`). -/
structure Err where
  kind : ErrKind
  node : NodeData
  positions : List Position
deriving DecidableEq, Repr

/-- Start position of a bucket entry, as `_record_error` computes it via
`get_start_position` on the stored objects; a child index resolves into the
child list the grouper was given. -/
def startOfElem (node : Span) (children : List Span) : GElem → Position
  | GElem.self => node.startPos
  | GElem.child i => (children.getD i ⟨⟨0, 0⟩, ⟨0, 0⟩⟩).startPos

/-- Translation of `Visitor._record_error`: the positions are the start
positions of the nodes handed in (none of which is `None`).  The source's
`assert positions` is dealt with separately: every bucket handed to this
function is proved non-empty. -/
def record_error (nd : NodeData) (children : List Span) (bucket : List GElem)
    (k : ErrKind) : Err :=
  ⟨k, nd, bucket.map (startOfElem nd.span children)⟩

/-- Translation of `Visitor._check_under_wrapping`. -/
def check_under_wrapping (nd : NodeData) (reference : Position) (nodes : List Span)
    (include_node_end include_node_start : Bool) : List Err :=
  let by_line_no :=
    get_nodes_by_line_number nd.span reference nodes include_node_end include_node_start
  let summary := summarise_lines by_line_no
  if summary.is_single_line_or_column then []
  else
    [record_error nd nodes (bucketAt by_line_no summary.most_common_line_number)
      ErrKind.under]

/-- Translation of `Visitor._check_over_wrapping`. -/
def check_over_wrapping (nd : NodeData) (reference : Position) (nodes : List Span)
    (include_node_end include_node_start : Bool) : List Err :=
  let by_line_no :=
    get_nodes_by_line_number nd.span reference nodes include_node_end include_node_start
  if by_line_no.length = 1 then []
  else [record_error nd nodes (by_line_no.map Prod.snd).flatten ErrKind.over]

/-- Ordered, `None`-filtered parameter list built by `visit_FunctionDef`:
`[*posonlyargs, *args, vararg, *kwonlyargs, kwarg, returns]` with absent
entries dropped. -/
def functiondef_nodes (posonlyargs args : List Span) (vararg : Option Span)
    (kwonlyargs : List Span) (kwarg returns : Option Span) : List Span :=
  (posonlyargs.map some ++ args.map some ++ [vararg] ++ kwonlyargs.map some ++
    [kwarg] ++ [returns]).filterMap id

/-- Line grouping built by `visit_IfExp`: the three branches grouped with
neither start nor end included, then, when the expression is parenthesised,
the node itself added to the buckets of the opening and closing paren lines. -/
def ifexp_by_line_no (span : Span) (prevTokenStart : Position)
    (body test orelse : Span) (isParenthesised : Bool) (nextTokenEnd : Position) :
    LineGroup :=
  let g0 := get_nodes_by_line_number span prevTokenStart [body, test, orelse] false false
  if isParenthesised then
    addToBucket (addToBucket g0 prevTokenStart.line GElem.self) nextTokenEnd.line GElem.self
  else g0

/-- Single-entry hugging test of `visit_Dict` (`_check_single_entry_hugging`). -/
def check_single_entry_hugging (span : Span) (values : List Span) : Bool :=
  match values with
  | [v] => v.startPos.line == span.startPos.line && v.endPos.line == span.endPos.line
  | _ => false

/-- Per-node dispatch of the `Visitor` class: the errors the visited node
itself contributes (its `visit_*` method minus the `generic_visit` recursion).
Constructs without a `visit_*` method contribute nothing. -/
def visitOwn (nd : NodeData) : List Err :=
  match nd.data with
  | ConstructData.classDef openParenEnd bases keywords =>
      check_under_wrapping nd openParenEnd (bases ++ keywords) false true
  | ConstructData.functionDef _ openParenEnd posonlyargs args vararg kwonlyargs
      kwarg returns =>
      check_under_wrapping nd openParenEnd
        (functiondef_nodes posonlyargs args vararg kwonlyargs kwarg returns) false true
  | ConstructData.call openParenEnd args keywords =>
      let by_line_no :=
        get_nodes_by_line_number nd.span openParenEnd (args ++ keywords) true true
      if 1 < by_line_no.length then
        let kwargs_by_line_no :=
          get_nodes_by_line_number nd.span openParenEnd keywords true args.isEmpty
        let kwargs_summary := summarise_lines kwargs_by_line_no
        let kwErrs :=
          if kwargs_summary.is_single_column then []
          else
            [record_error nd keywords
              (bucketAt kwargs_by_line_no kwargs_summary.most_common_line_number)
              ErrKind.under]
        let pos_args_by_line_no :=
          get_nodes_by_line_number nd.span openParenEnd args keywords.isEmpty true
        let pos_args_summary := summarise_lines pos_args_by_line_no
        let posErrs :=
          if pos_args_summary.is_single_line_or_column then []
          else
            [record_error nd args
              (bucketAt pos_args_by_line_no pos_args_summary.most_common_line_number)
              ErrKind.under]
        kwErrs ++ posErrs
      else []
  | ConstructData.dict keys values =>
      let by_line_no :=
        get_nodes_by_line_number nd.span nd.span.startPos (keys.filterMap id) true true
      let summary := summarise_lines by_line_no
      if summary.is_single_line_or_column then []
      else if check_single_entry_hugging nd.span values then []
      else
        [record_error nd (keys.filterMap id)
          (bucketAt by_line_no summary.most_common_line_number) ErrKind.under]
  | ConstructData.ifExp prevTokenStart body test orelse isParenthesised nextTokenEnd =>
      let by_line_no :=
        ifexp_by_line_no nd.span prevTokenStart body test orelse isParenthesised nextTokenEnd
      let summary := summarise_lines by_line_no
      if summary.is_single_line_or_column then []
      else
        [record_error nd [body, test, orelse]
          (bucketAt by_line_no summary.most_common_line_number) ErrKind.under]
  | ConstructData.joinedStr => []
  | ConstructData.listLit elts =>
      check_under_wrapping nd nd.span.startPos elts true true
  | ConstructData.tupleLit elts firstTokenIsOpenParen lastTokenIsCloseParen =>
      let is_parenthesised := firstTokenIsOpenParen && lastTokenIsCloseParen
      check_under_wrapping nd nd.span.startPos elts is_parenthesised is_parenthesised
  | ConstructData.setLit _ => []
  | ConstructData.compare left comparators =>
      check_over_wrapping nd left.startPos (left :: comparators) true true
  | ConstructData.comprehension target iter =>
      check_over_wrapping nd nd.span.startPos [target, iter] false false
  | ConstructData.other => []

/-- Syntax tree handed to the visitor: each node carries its own data and its
child nodes in traversal order. -/
inductive PyTree where
  | node : NodeData → List PyTree → PyTree

mutual

/-- Translation of the traversal (`Visitor.visit` / `check`): a node's own
errors followed by its children's, depth first.  `visit_JoinedStr` returns
without calling `generic_visit`, pruning the subtree. -/
def visitAll : PyTree → List Err
  | PyTree.node nd children =>
      match nd.data with
      | ConstructData.joinedStr => []
      | _ => visitOwn nd ++ visitForest children

/-- Errors of a list of sibling subtrees, in order. -/
def visitForest : List PyTree → List Err
  | [] => []
  | t :: ts => visitAll t ++ visitForest ts

end

mutual

/-- Nodes reached by the traversal, in visit order (a `JoinedStr` is visited
but its subtree is not). -/
def visitedNodes : PyTree → List NodeData
  | PyTree.node nd children =>
      match nd.data with
      | ConstructData.joinedStr => [nd]
      | _ => nd :: visitedForest children

/-- Nodes reached by traversing a list of sibling subtrees. -/
def visitedForest : List PyTree → List NodeData
  | [] => []
  | t :: ts => visitedNodes t ++ visitedForest ts

end

/-- Translation of `UnderWrappedError.__str__` / `OverWrappedError.__str__`.
`set(x.line for x in self.positions)` is modelled by `List.dedup`; only its
cardinality is consumed. -/
def str_error (e : Err) : String :=
  match e.kind with
  | ErrKind.under =>
      "BWR001 " ++ constructName e.node.data ++ " is wrapped badly - " ++
        toString e.positions.length ++ " elements on the same line"
  | ErrKind.over =>
      "BWR002 " ++ constructName e.node.data ++ " is wrapped unexpectedly over " ++
        toString ((e.positions.map Position.line).dedup).length ++ " lines"

/-- Line groupings a node's checker hands to `_summarise_lines` (the
over-wrapping checker never summarises, and the call checker summarises its
two sub-groups only when the combined group spans more than one line). -/
def summarisedGroups (nd : NodeData) : List LineGroup :=
  match nd.data with
  | ConstructData.classDef openParenEnd bases keywords =>
      [get_nodes_by_line_number nd.span openParenEnd (bases ++ keywords) false true]
  | ConstructData.functionDef _ openParenEnd posonlyargs args vararg kwonlyargs
      kwarg returns =>
      [get_nodes_by_line_number nd.span openParenEnd
        (functiondef_nodes posonlyargs args vararg kwonlyargs kwarg returns) false true]
  | ConstructData.call openParenEnd args keywords =>
      let combined :=
        get_nodes_by_line_number nd.span openParenEnd (args ++ keywords) true true
      if 1 < combined.length then
        [get_nodes_by_line_number nd.span openParenEnd keywords true args.isEmpty,
          get_nodes_by_line_number nd.span openParenEnd args keywords.isEmpty true]
      else []
  | ConstructData.dict keys _ =>
      [get_nodes_by_line_number nd.span nd.span.startPos (keys.filterMap id) true true]
  | ConstructData.ifExp prevTokenStart body test orelse isParenthesised nextTokenEnd =>
      [ifexp_by_line_no nd.span prevTokenStart body test orelse isParenthesised nextTokenEnd]
  | ConstructData.listLit elts =>
      [get_nodes_by_line_number nd.span nd.span.startPos elts true true]
  | ConstructData.tupleLit elts firstTokenIsOpenParen lastTokenIsCloseParen =>
      let is_parenthesised := firstTokenIsOpenParen && lastTokenIsCloseParen
      [get_nodes_by_line_number nd.span nd.span.startPos elts is_parenthesised
        is_parenthesised]
  | _ => []

/-- Structural well-formedness a real parse guarantees: a tuple that is not
parenthesised has at least one element (the empty tuple `()` is always
delimited by its own parentheses). -/
def dataWF : ConstructData → Bool
  | ConstructData.tupleLit elts firstTokenIsOpenParen lastTokenIsCloseParen =>
      (firstTokenIsOpenParen && lastTokenIsCloseParen) || !elts.isEmpty
  | _ => true

/-- Well-formed tree: every visited node is well-formed. -/
def treeWF (t : PyTree) : Prop :=
  ∀ nd ∈ visitedNodes t, dataWF nd.data = true

/-- Children (by index) of the given list whose start line is `l`, in order;
used to describe the buckets the grouper builds. -/
def childrenAtLine (i : Nat) (nodes : List Span) (l : Nat) : List GElem :=
  match nodes with
  | [] => []
  | x :: xs =>
      (if x.startPos.line = l then [GElem.child i] else []) ++ childrenAtLine (i + 1) xs l

/-- Intermediate grouping of `_get_nodes_by_line_number`: the optional seed at
the reference line followed by all children, before the end-line step. -/
def grouper_g1 (reference : Position) (nodes : List Span) (include_node_start : Bool) :
    LineGroup :=
  addChildrenFrom (if include_node_start then addToBucket [] reference.line GElem.self else [])
    0 nodes

/-- Condition under which the grouper appends the containing node at its end
line: no child ends exactly one column before the node's end (no hugging), or
a bucket already exists at the end line. -/
abbrev endAppendCond (node : Span) (nodes : List Span) (g1 : LineGroup) : Prop :=
  (⟨node.endPos.line, node.endPos.col - 1⟩ : Position) ∉ get_end_positions nodes ∨
    node.endPos.line ∈ g1.map Prod.fst

/-- Spec-side predicate: the grouping has exactly one distinct line key
("is single line"). -/
def specSingleLine (g : LineGroup) : Prop :=
  ((g.map Prod.fst).dedup).length = 1

/-- Spec-side predicate: the maximum bucket size across all lines is at most
one ("is single column"). -/
def specSingleColumn (g : LineGroup) : Prop :=
  ∀ p ∈ g, p.2.length ≤ 1

/-- Spec-side characterisation of the most-crowded line: `l` is the key of
the first bucket of maximal size in the grouping's insertion order. -/
def specFirstMostCrowded (g : LineGroup) (l : Nat) : Prop :=
  ∃ pre b post, g = pre ++ b :: post ∧ b.1 = l ∧
    (∀ q ∈ pre, q.2.length < b.2.length) ∧ (∀ q ∈ post, q.2.length ≤ b.2.length)

instance (g : LineGroup) : Decidable (specSingleLine g) := by
  unfold specSingleLine; infer_instance

instance (g : LineGroup) : Decidable (specSingleColumn g) := by
  unfold specSingleColumn; infer_instance

/-- Spec-side statement of the under-wrapping outcome for a grouping `g` built
over the child list `children`: a single-line or single-column grouping
produces no violation; any other grouping produces exactly one Under violation
whose positions are the start positions of the elements in the bucket of the
first most-crowded line. -/
def specUnderOutcome (errs : List Err) (nd : NodeData) (children : List Span)
    (g : LineGroup) : Prop :=
  ((specSingleLine g ∨ specSingleColumn g) → errs = []) ∧
  (¬ (specSingleLine g ∨ specSingleColumn g) →
    ∃ l, specFirstMostCrowded g l ∧
      errs = [⟨ErrKind.under, nd, (bucketAt g l).map (startOfElem nd.span children)⟩])

/-- Spec-side statement of the keyword-group outcome of the call checker:
single-column keyword groupings produce no violation, any other produces
exactly one Under violation at the first most-crowded line's bucket. -/
def specKwOutcome (errs : List Err) (nd : NodeData) (children : List Span)
    (g : LineGroup) : Prop :=
  (specSingleColumn g → errs = []) ∧
  (¬ specSingleColumn g →
    ∃ l, specFirstMostCrowded g l ∧
      errs = [⟨ErrKind.under, nd, (bucketAt g l).map (startOfElem nd.span children)⟩])

/-- Spec-side single-entry hugging condition of the dict checker: exactly one
key/value pair whose value starts on the dict's start line and ends on the
dict's end line. -/
def specSingleEntryHugging (span : Span) (values : List Span) : Prop :=
  ∃ v, values = [v] ∧ v.startPos.line = span.startPos.line ∧
    v.endPos.line = span.endPos.line

/-- Test for the set-literal construct (which has no checker). -/
def isSetLit : ConstructData → Bool
  | ConstructData.setLit _ => true
  | _ => false

instance (t : PyTree) : Decidable (treeWF t) :=
  List.decidableBAll _ _

theorem addToBucket_ne_nil (g : LineGroup) (l : Nat) (e : GElem) :
    addToBucket g l e ≠ [] := by
  cases g with
  | nil => simp [addToBucket]
  | cons p rest =>
      obtain ⟨k, xs⟩ := p
      by_cases h : k = l <;> simp [addToBucket, h]

theorem bucketAt_nil (l : Nat) : bucketAt [] l = [] := rfl

theorem bucketAt_cons (k : Nat) (xs : List GElem) (rest : LineGroup) (l : Nat) :
    bucketAt ((k, xs) :: rest) l = if k = l then xs else bucketAt rest l := by
  by_cases h : k = l <;> simp [bucketAt, List.find?_cons, h]

theorem bucketAt_addToBucket_same (g : LineGroup) (l : Nat) (e : GElem) :
    bucketAt (addToBucket g l e) l = bucketAt g l ++ [e] := by
  induction g with
  | nil => simp [addToBucket, bucketAt_cons, bucketAt_nil]
  | cons p rest ih =>
      obtain ⟨k, xs⟩ := p
      by_cases h : k = l
      · subst h
        simp [addToBucket, bucketAt_cons]
      · simp [addToBucket, bucketAt_cons, h, ih]

theorem bucketAt_addToBucket_ne (g : LineGroup) (l l' : Nat) (e : GElem)
    (h : l' ≠ l) : bucketAt (addToBucket g l e) l' = bucketAt g l' := by
  induction g with
  | nil => simp [addToBucket, bucketAt_cons, bucketAt_nil, Ne.symm h]
  | cons p rest ih =>
      obtain ⟨k, xs⟩ := p
      by_cases hk : k = l
      · subst hk
        simp [addToBucket, bucketAt_cons, Ne.symm h]
      · simp [addToBucket, bucketAt_cons, hk, ih]

theorem map_fst_addToBucket (g : LineGroup) (l : Nat) (e : GElem) :
    (addToBucket g l e).map Prod.fst =
      if l ∈ g.map Prod.fst then g.map Prod.fst else g.map Prod.fst ++ [l] := by
  induction g with
  | nil => simp [addToBucket]
  | cons p rest ih =>
      obtain ⟨k, xs⟩ := p
      by_cases h : k = l
      · subst h
        simp [addToBucket]
      · by_cases h2 : l ∈ rest.map Prod.fst
        · simp [addToBucket, h, ih, h2, Ne.symm h]
        · simp [addToBucket, h, ih, h2, Ne.symm h]

theorem mem_map_fst_addToBucket (g : LineGroup) (l : Nat) (e : GElem) (l' : Nat) :
    l' ∈ (addToBucket g l e).map Prod.fst ↔ l' ∈ g.map Prod.fst ∨ l' = l := by
  rw [map_fst_addToBucket]
  by_cases h : l ∈ g.map Prod.fst
  · simp only [h, if_pos]
    constructor
    · exact fun hm => Or.inl hm
    · rintro (hm | rfl)
      · exact hm
      · exact h
  · simp [h]

theorem nodup_map_fst_addToBucket (g : LineGroup) (l : Nat) (e : GElem)
    (h : (g.map Prod.fst).Nodup) : ((addToBucket g l e).map Prod.fst).Nodup := by
  rw [map_fst_addToBucket]
  by_cases hm : l ∈ g.map Prod.fst
  · simpa [hm] using h
  · simp only [hm, if_neg, not_false_iff]
    exact List.Nodup.append h (List.nodup_singleton l) (by simp [List.disjoint_singleton, hm])

theorem snd_ne_nil_addToBucket (g : LineGroup) (l : Nat) (e : GElem)
    (h : ∀ p ∈ g, p.2 ≠ []) : ∀ p ∈ addToBucket g l e, p.2 ≠ [] := by
  induction g with
  | nil => simp [addToBucket]
  | cons q rest ih =>
      obtain ⟨k, xs⟩ := q
      by_cases hk : k = l
      · subst hk
        intro p hp
        simp only [addToBucket, if_pos, List.mem_cons] at hp
        rcases hp with rfl | hp
        · simp
        · exact h p (List.mem_cons_of_mem _ hp)
      · intro p hp
        simp only [addToBucket, hk, if_neg, not_false_iff, List.mem_cons] at hp
        rcases hp with rfl | hp
        · exact h _ (List.mem_cons_self _ _)
        · exact ih (fun q hq => h q (List.mem_cons_of_mem _ hq)) p hp

theorem bucketAt_addChildrenFrom (nodes : List Span) : ∀ (g : LineGroup) (i l : Nat),
    bucketAt (addChildrenFrom g i nodes) l = bucketAt g l ++ childrenAtLine i nodes l := by
  induction nodes with
  | nil => intro g i l; simp [addChildrenFrom, childrenAtLine]
  | cons x xs ih =>
      intro g i l
      simp only [addChildrenFrom, childrenAtLine]
      rw [ih]
      by_cases h : x.startPos.line = l
      · rw [get_start_position, h, bucketAt_addToBucket_same]
        simp [h]
      · rw [get_start_position, bucketAt_addToBucket_ne _ _ _ _ (fun hh => h hh.symm)]
        simp [h]

theorem mem_map_fst_addChildrenFrom (nodes : List Span) : ∀ (g : LineGroup) (i l' : Nat),
    l' ∈ (addChildrenFrom g i nodes).map Prod.fst ↔
      l' ∈ g.map Prod.fst ∨ l' ∈ nodes.map (fun x => x.startPos.line) := by
  induction nodes with
  | nil => intro g i l'; simp [addChildrenFrom]
  | cons x xs ih =>
      intro g i l'
      simp only [addChildrenFrom, List.map_cons, List.mem_cons]
      rw [ih, mem_map_fst_addToBucket]
      simp [get_start_position]
      tauto

theorem nodup_map_fst_addChildrenFrom (nodes : List Span) : ∀ (g : LineGroup) (i : Nat),
    (g.map Prod.fst).Nodup → ((addChildrenFrom g i nodes).map Prod.fst).Nodup := by
  induction nodes with
  | nil => intro g i h; simpa [addChildrenFrom] using h
  | cons x xs ih =>
      intro g i h
      exact ih _ _ (nodup_map_fst_addToBucket _ _ _ h)

theorem snd_ne_nil_addChildrenFrom (nodes : List Span) : ∀ (g : LineGroup) (i : Nat),
    (∀ p ∈ g, p.2 ≠ []) → ∀ p ∈ addChildrenFrom g i nodes, p.2 ≠ [] := by
  induction nodes with
  | nil => intro g i h; simpa [addChildrenFrom] using h
  | cons x xs ih =>
      intro g i h
      exact ih _ _ (snd_ne_nil_addToBucket _ _ _ h)

theorem addChildrenFrom_ne_nil (nodes : List Span) : ∀ (g : LineGroup) (i : Nat),
    g ≠ [] ∨ nodes ≠ [] → addChildrenFrom g i nodes ≠ [] := by
  induction nodes with
  | nil => intro g i h; simpa [addChildrenFrom] using h.resolve_right (fun hh => hh rfl)
  | cons x xs ih =>
      intro g i _
      simp only [addChildrenFrom]
      exact ih _ _ (Or.inl (addToBucket_ne_nil _ _ _))

theorem foldl_max_first (l : List (Nat × Nat)) : ∀ (b : Nat × Nat),
    (l.foldl (fun best q => if best.2 < q.2 then q else best) b = b ∧ ∀ q ∈ l, q.2 ≤ b.2) ∨
    (∃ pre r post, l = pre ++ r :: post ∧
      l.foldl (fun best q => if best.2 < q.2 then q else best) b = r ∧
      b.2 < r.2 ∧ (∀ q ∈ pre, q.2 < r.2) ∧ (∀ q ∈ post, q.2 ≤ r.2)) := by
  induction l with
  | nil => intro b; left; simp
  | cons q t ih =>
      intro b
      by_cases h : b.2 < q.2
      · rcases ih q with ⟨heq, hle⟩ | ⟨pre, r, post, hsplit, heq, hlt, hpre, hpost⟩
        · right
          exact ⟨[], q, t, by simp, by simpa [h] using heq, h, by simp, hle⟩
        · right
          refine ⟨q :: pre, r, post, by simp [hsplit], by simpa [h] using heq,
            lt_trans h hlt, ?_, hpost⟩
          intro x hx
          rcases List.mem_cons.mp hx with rfl | hx
          · exact hlt
          · exact hpre x hx
      · rcases ih b with ⟨heq, hle⟩ | ⟨pre, r, post, hsplit, heq, hlt, hpre, hpost⟩
        · left
          refine ⟨by simpa [h] using heq, ?_⟩
          intro x hx
          rcases List.mem_cons.mp hx with rfl | hx
          · omega
          · exact hle x hx
        · right
          refine ⟨q :: pre, r, post, by simp [hsplit], by simpa [h] using heq, hlt, ?_, hpost⟩
          intro x hx
          rcases List.mem_cons.mp hx with rfl | hx
          · omega
          · exact hpre x hx

theorem most_common_one_spec (c : List (Nat × Nat)) (hc : c ≠ []) :
    ∃ pre b post, c = pre ++ b :: post ∧ most_common_one c = b ∧
      (∀ q ∈ pre, q.2 < b.2) ∧ (∀ q ∈ post, q.2 ≤ b.2) := by
  match c with
  | p :: rest =>
      rcases foldl_max_first rest p with ⟨heq, hle⟩ | ⟨pre, r, post, hsplit, heq, hlt, hpre, hpost⟩
      · exact ⟨[], p, rest, by simp, by simpa [most_common_one] using heq, by simp, hle⟩
      · refine ⟨p :: pre, r, post, by simp [hsplit], by simpa [most_common_one] using heq,
          ?_, hpost⟩
        intro x hx
        rcases List.mem_cons.mp hx with rfl | hx
        · exact hlt
        · exact hpre x hx

theorem most_common_one_mem (c : List (Nat × Nat)) (hc : c ≠ []) :
    most_common_one c ∈ c := by
  obtain ⟨pre, b, post, hsplit, heq, -, -⟩ := most_common_one_spec c hc
  rw [heq, hsplit]
  simp

theorem most_common_one_le (c : List (Nat × Nat)) (hc : c ≠ []) :
    ∀ q ∈ c, q.2 ≤ (most_common_one c).2 := by
  obtain ⟨pre, b, post, hsplit, heq, hpre, hpost⟩ := most_common_one_spec c hc
  rw [heq, hsplit]
  intro q hq
  rcases List.mem_append.mp hq with hq | hq
  · exact le_of_lt (hpre q hq)
  · rcases List.mem_cons.mp hq with rfl | hq
    · exact le_refl _
    · exact hpost q hq

theorem is_single_line_iff (g : LineGroup) (hnd : (g.map Prod.fst).Nodup) :
    (summarise_lines g).is_single_line = true ↔ specSingleLine g := by
  simp [summarise_lines, specSingleLine, List.Nodup.dedup hnd]

theorem is_single_column_iff (g : LineGroup) (hne : g ≠ []) (hb : ∀ p ∈ g, p.2 ≠ []) :
    (summarise_lines g).is_single_column = true ↔ specSingleColumn g := by
  have hc : (g.map fun p => (p.1, p.2.length)) ≠ [] := by simpa using hne
  constructor
  · intro h q hq
    have hle := most_common_one_le _ hc (q.1, q.2.length)
      (List.mem_map_of_mem _ hq)
    simp only [summarise_lines, beq_iff_eq] at h
    omega
  · intro h
    have hmem := most_common_one_mem _ hc
    obtain ⟨q, hq, hqe⟩ := List.mem_map.mp hmem
    have h1 : q.2.length ≤ 1 := h q hq
    have h2 : q.2 ≠ [] := hb q hq
    have h3 : 1 ≤ q.2.length := List.length_pos.mpr h2
    simp only [summarise_lines, beq_iff_eq]
    rw [← hqe]
    omega

theorem most_common_line_spec (g : LineGroup) (hne : g ≠ []) :
    specFirstMostCrowded g (summarise_lines g).most_common_line_number := by
  have hc : (g.map fun p => (p.1, p.2.length)) ≠ [] := by simpa using hne
  obtain ⟨pre, b, post, hsplit, heq, hpre, hpost⟩ := most_common_one_spec _ hc
  obtain ⟨l₁, l₂, hg, hm₁, hm₂⟩ := List.map_eq_append_iff.mp hsplit
  obtain ⟨a, l₃, hl₂, ha, hm₃⟩ := List.map_eq_cons_iff.mp hm₂
  refine ⟨l₁, a, l₃, by rw [hg, hl₂], ?_, ?_, ?_⟩
  · have : (summarise_lines g).most_common_line_number = b.1 := by
      simp [summarise_lines, heq]
    rw [this, ← ha]
  · intro q hq
    have : (q.1, q.2.length) ∈ List.map (fun p => (p.1, p.2.length)) l₁ :=
      List.mem_map_of_mem _ hq
    rw [hm₁] at this
    have := hpre _ this
    simpa [← ha] using this
  · intro q hq
    have : (q.1, q.2.length) ∈ List.map (fun p => (p.1, p.2.length)) l₃ :=
      List.mem_map_of_mem _ hq
    rw [hm₃] at this
    have := hpost _ this
    simpa [← ha] using this

theorem grouper_eq (node : Span) (reference : Position) (nodes : List Span)
    (ie is : Bool) :
    get_nodes_by_line_number node reference nodes ie is =
      if ie then
        (if endAppendCond node nodes (grouper_g1 reference nodes is)
         then addToBucket (grouper_g1 reference nodes is) node.endPos.line GElem.self
         else grouper_g1 reference nodes is)
      else grouper_g1 reference nodes is := rfl

theorem bucketAt_grouper_start (reference : Position) (is : Bool) (l : Nat) :
    bucketAt (if is then addToBucket [] reference.line GElem.self else []) l =
      if is = true ∧ reference.line = l then [GElem.self] else [] := by
  cases is
  · simp [bucketAt_nil]
  · by_cases h : reference.line = l <;> simp [addToBucket, bucketAt_cons, bucketAt_nil, h]

theorem bucketAt_grouper_g1 (reference : Position) (nodes : List Span) (is : Bool)
    (l : Nat) :
    bucketAt (grouper_g1 reference nodes is) l =
      (if is = true ∧ reference.line = l then [GElem.self] else []) ++
        childrenAtLine 0 nodes l := by
  rw [grouper_g1, bucketAt_addChildrenFrom, bucketAt_grouper_start]

theorem bucketAt_grouper (node : Span) (reference : Position) (nodes : List Span)
    (ie is : Bool) (l : Nat) :
    bucketAt (get_nodes_by_line_number node reference nodes ie is) l =
      (if is = true ∧ reference.line = l then [GElem.self] else []) ++
        childrenAtLine 0 nodes l ++
        (if ie = true ∧ endAppendCond node nodes (grouper_g1 reference nodes is) ∧
            node.endPos.line = l
         then [GElem.self] else []) := by
  rw [grouper_eq]
  cases ie
  · rw [if_neg (by simp), bucketAt_grouper_g1]
    simp
  · rw [if_pos rfl]
    by_cases hc : endAppendCond node nodes (grouper_g1 reference nodes is)
    · rw [if_pos hc]
      by_cases hl : node.endPos.line = l
      · subst hl
        rw [bucketAt_addToBucket_same, bucketAt_grouper_g1]
        simp [hc]
      · rw [bucketAt_addToBucket_ne _ _ _ _ (Ne.symm hl), bucketAt_grouper_g1]
        simp [hl]
    · rw [if_neg hc, bucketAt_grouper_g1]
      simp [hc]

theorem grouper_g1_nodup_keys (reference : Position) (nodes : List Span) (is : Bool) :
    ((grouper_g1 reference nodes is).map Prod.fst).Nodup := by
  apply nodup_map_fst_addChildrenFrom
  cases is <;> simp [addToBucket]

theorem grouper_nodup_keys (node : Span) (reference : Position) (nodes : List Span)
    (ie is : Bool) :
    ((get_nodes_by_line_number node reference nodes ie is).map Prod.fst).Nodup := by
  rw [grouper_eq]
  have h1 := grouper_g1_nodup_keys reference nodes is
  cases ie
  · simpa using h1
  · rw [if_pos rfl]
    by_cases hc : endAppendCond node nodes (grouper_g1 reference nodes is)
    · rw [if_pos hc]
      exact nodup_map_fst_addToBucket _ _ _ h1
    · rw [if_neg hc]
      exact h1

theorem grouper_g1_snd_ne_nil (reference : Position) (nodes : List Span) (is : Bool) :
    ∀ p ∈ grouper_g1 reference nodes is, p.2 ≠ [] := by
  apply snd_ne_nil_addChildrenFrom
  cases is <;> simp [addToBucket]

theorem grouper_snd_ne_nil (node : Span) (reference : Position) (nodes : List Span)
    (ie is : Bool) :
    ∀ p ∈ get_nodes_by_line_number node reference nodes ie is, p.2 ≠ [] := by
  rw [grouper_eq]
  have h1 := grouper_g1_snd_ne_nil reference nodes is
  cases ie
  · simpa using h1
  · rw [if_pos rfl]
    by_cases hc : endAppendCond node nodes (grouper_g1 reference nodes is)
    · rw [if_pos hc]
      exact snd_ne_nil_addToBucket _ _ _ h1
    · rw [if_neg hc]
      exact h1

theorem grouper_ne_nil (node : Span) (reference : Position) (nodes : List Span)
    (ie is : Bool) (h : is = true ∨ nodes ≠ [] ∨ ie = true) :
    get_nodes_by_line_number node reference nodes ie is ≠ [] := by
  rw [grouper_eq]
  by_cases hg1 : grouper_g1 reference nodes is = []
  · have hie : ie = true := by
      rcases h with h | h | h
      · exfalso
        apply addChildrenFrom_ne_nil nodes _ 0 (Or.inl _) hg1
        subst h
        simp [addToBucket]
      · exact absurd hg1 (addChildrenFrom_ne_nil nodes _ 0 (Or.inr h))
      · exact h
    subst hie
    rw [if_pos rfl]
    split
    · exact addToBucket_ne_nil _ _ _
    · next hc =>
        exfalso
        apply hc
        left
        intro hmem
        obtain ⟨x, hx, -⟩ := List.mem_map.mp hmem
        exact addChildrenFrom_ne_nil nodes _ 0 (Or.inr (List.ne_nil_of_mem hx)) hg1
  · cases ie
    · simpa using hg1
    · rw [if_pos rfl]
      split
      · exact addToBucket_ne_nil _ _ _
      · exact hg1

theorem mem_keys_of_bucketAt_ne_nil (g : LineGroup) (l : Nat)
    (h : bucketAt g l ≠ []) : l ∈ g.map Prod.fst := by
  unfold bucketAt at h
  cases hf : g.find? (fun p => p.1 == l) with
  | none => rw [hf] at h; simp at h
  | some p =>
      have hp1 : (p.1 == l) = true :=
        List.find?_some (p := fun q : Nat × List GElem => q.1 == l) hf
      have hpm : p ∈ g := List.mem_of_find?_eq_some hf
      have : p.1 = l := by simpa using hp1
      rw [← this]
      exact List.mem_map_of_mem _ hpm

theorem bucketAt_ne_nil_of_mem_keys (g : LineGroup) (l : Nat)
    (hb : ∀ p ∈ g, p.2 ≠ []) (h : l ∈ g.map Prod.fst) : bucketAt g l ≠ [] := by
  induction g with
  | nil => simp at h
  | cons q rest ih =>
      obtain ⟨k, xs⟩ := q
      rw [bucketAt_cons]
      by_cases hk : k = l
      · rw [if_pos hk]
        exact hb (k, xs) (List.mem_cons_self _ _)
      · rw [if_neg hk]
        apply ih (fun p hp => hb p (List.mem_cons_of_mem _ hp))
        rcases List.mem_cons.mp h with h | h
        · exact absurd h.symm hk
        · exact h

theorem bucketAt_of_mem (g : LineGroup) (hnd : (g.map Prod.fst).Nodup) :
    ∀ p ∈ g, bucketAt g p.1 = p.2 := by
  induction g with
  | nil => simp
  | cons q rest ih =>
      intro p hp
      obtain ⟨k, xs⟩ := q
      rcases List.mem_cons.mp hp with rfl | hp
      · simp [bucketAt_cons]
      · have hnd2 : (k :: rest.map Prod.fst).Nodup := by simpa using hnd
        have hk : k ≠ p.1 := by
          intro hh
          apply (List.nodup_cons.mp hnd2).1
          rw [hh]
          exact List.mem_map_of_mem _ hp
        rw [bucketAt_cons, if_neg hk]
        exact ih (List.nodup_cons.mp hnd2).2 p hp

theorem childrenAtLine_length (nodes : List Span) : ∀ (i l : Nat),
    (childrenAtLine i nodes l).length = (nodes.map fun x => x.startPos.line).count l := by
  induction nodes with
  | nil => intro i l; simp [childrenAtLine]
  | cons x xs ih =>
      intro i l
      simp only [childrenAtLine, List.map_cons, List.count_cons, List.length_append, ih]
      by_cases h : x.startPos.line = l
      · simp [h]
        omega
      · simp [h, Ne.symm h]

theorem childrenAtLine_ne_nil (nodes : List Span) : ∀ (i : Nat), ∀ x ∈ nodes,
    childrenAtLine i nodes x.startPos.line ≠ [] := by
  induction nodes with
  | nil => simp
  | cons y xs ih =>
      intro i x hx
      rcases List.mem_cons.mp hx with rfl | hx
      · simp [childrenAtLine]
      · simp only [childrenAtLine]
        intro hcontra
        rcases List.append_eq_nil.mp hcontra with ⟨-, h2⟩
        exact ih (i + 1) x hx h2

theorem specSingleLine_iff_length (g : LineGroup) (hnd : (g.map Prod.fst).Nodup) :
    specSingleLine g ↔ g.length = 1 := by
  simp [specSingleLine, List.Nodup.dedup hnd]

theorem summary_slc_iff (g : LineGroup) (hne : g ≠ [])
    (hnd : (g.map Prod.fst).Nodup) (hb : ∀ p ∈ g, p.2 ≠ []) :
    (summarise_lines g).is_single_line_or_column = true ↔
      (specSingleLine g ∨ specSingleColumn g) := by
  rw [PositionsSummary.is_single_line_or_column, Bool.or_eq_true,
    is_single_line_iff g hnd, is_single_column_iff g hne hb]

theorem check_under_wrapping_spec (nd : NodeData) (reference : Position)
    (nodes : List Span) (ie is : Bool)
    (hne : get_nodes_by_line_number nd.span reference nodes ie is ≠ []) :
    specUnderOutcome (check_under_wrapping nd reference nodes ie is) nd nodes
      (get_nodes_by_line_number nd.span reference nodes ie is) := by
  have hnd := grouper_nodup_keys nd.span reference nodes ie is
  have hb := grouper_snd_ne_nil nd.span reference nodes ie is
  have hiff := summary_slc_iff _ hne hnd hb
  constructor
  · intro h
    unfold check_under_wrapping
    rw [if_pos (hiff.mpr h)]
  · intro h
    refine ⟨(summarise_lines (get_nodes_by_line_number nd.span reference nodes ie is)).most_common_line_number,
      most_common_line_spec _ hne, ?_⟩
    unfold check_under_wrapping
    rw [if_neg (fun hc => h (hiff.mp hc))]
    rfl

theorem bucketAt_most_common_ne_nil (g : LineGroup) (hne : g ≠ [])
    (hb : ∀ p ∈ g, p.2 ≠ []) :
    bucketAt g (summarise_lines g).most_common_line_number ≠ [] := by
  obtain ⟨pre, b, post, hsplit, hb1, -, -⟩ := most_common_line_spec g hne
  apply bucketAt_ne_nil_of_mem_keys g _ hb
  rw [← hb1, hsplit]
  simp

theorem grouper_single_column (node : Span) (reference : Position) (nodes : List Span)
    (ie is : Bool)
    (hnodes : (nodes.map fun x => x.startPos.line).Nodup)
    (hstart : is = true → reference.line ∉ nodes.map fun x => x.startPos.line)
    (hend : ie = true → node.endPos.line ∉ nodes.map fun x => x.startPos.line)
    (hse : is = true → ie = true → node.endPos.line ≠ reference.line) :
    specSingleColumn (get_nodes_by_line_number node reference nodes ie is) := by
  intro p hp
  have hkeys := grouper_nodup_keys node reference nodes ie is
  have hbk := bucketAt_of_mem _ hkeys p hp
  rw [← hbk, bucketAt_grouper]
  have hcl : (childrenAtLine 0 nodes p.1).length =
      (nodes.map fun x => x.startPos.line).count p.1 := childrenAtLine_length nodes 0 p.1
  have hcle : (nodes.map fun x => x.startPos.line).count p.1 ≤ 1 :=
    List.nodup_iff_count_le_one.mp hnodes _
  simp only [List.length_append]
  by_cases h1 : is = true ∧ reference.line = p.1
  · have hze : (nodes.map fun x => x.startPos.line).count p.1 = 0 :=
      List.count_eq_zero.mpr (h1.2 ▸ hstart h1.1)
    by_cases h2 : ie = true ∧ endAppendCond node nodes (grouper_g1 reference nodes is) ∧
        node.endPos.line = p.1
    · exact absurd (h2.2.2.trans h1.2.symm) (hse h1.1 h2.1)
    · rw [if_pos h1, if_neg h2]
      simp only [List.length_singleton, List.length_nil, hcl, hze]
      omega
  · by_cases h2 : ie = true ∧ endAppendCond node nodes (grouper_g1 reference nodes is) ∧
        node.endPos.line = p.1
    · have hze : (nodes.map fun x => x.startPos.line).count p.1 = 0 :=
        List.count_eq_zero.mpr (h2.2.2 ▸ hend h2.1)
      rw [if_neg h1, if_pos h2]
      simp only [List.length_singleton, List.length_nil, hcl, hze]
      omega
    · rw [if_neg h1, if_neg h2]
      simp only [List.length_singleton, List.length_nil, hcl]
      omega

theorem flatten_ne_nil_of_head (l : List (List GElem)) (hne : l ≠ [])
    (hb : ∀ x ∈ l, x ≠ []) : l.flatten ≠ [] := by
  match l with
  | x :: xs =>
      simp only [List.flatten_cons]
      have hx := hb x (List.mem_cons_self _ _)
      intro hc
      rcases List.append_eq_nil.mp hc with ⟨h3, -⟩
      exact hx h3

theorem check_under_wrapping_node_eq (nd : NodeData) (reference : Position)
    (nodes : List Span) (ie is : Bool) :
    ∀ e ∈ check_under_wrapping nd reference nodes ie is, e.node = nd := by
  intro e he
  simp only [check_under_wrapping] at he
  split at he
  · simp at he
  · simp only [List.mem_singleton] at he
    subst he
    rfl

theorem check_over_wrapping_node_eq (nd : NodeData) (reference : Position)
    (nodes : List Span) (ie is : Bool) :
    ∀ e ∈ check_over_wrapping nd reference nodes ie is, e.node = nd := by
  intro e he
  simp only [check_over_wrapping] at he
  split at he
  · simp at he
  · simp only [List.mem_singleton] at he
    subst he
    rfl

theorem visitOwn_node_eq (nd : NodeData) : ∀ e ∈ visitOwn nd, e.node = nd := by
  intro e he
  obtain ⟨sp, d⟩ := nd
  cases d with
  | classDef p bases kws => exact check_under_wrapping_node_eq _ _ _ _ _ e he
  | functionDef a p po ar va kw ka re => exact check_under_wrapping_node_eq _ _ _ _ _ e he
  | call p args kws =>
      simp only [visitOwn] at he
      split at he
      · rcases List.mem_append.mp he with he | he
        · split at he
          · simp at he
          · simp only [List.mem_singleton] at he
            subst he
            rfl
        · split at he
          · simp at he
          · simp only [List.mem_singleton] at he
            subst he
            rfl
      · simp at he
  | dict keys values =>
      simp only [visitOwn] at he
      split at he
      · simp at he
      · split at he
        · simp at he
        · simp only [List.mem_singleton] at he
          subst he
          rfl
  | ifExp a b c d2 e2 f2 =>
      simp only [visitOwn] at he
      split at he
      · simp at he
      · simp only [List.mem_singleton] at he
        subst he
        rfl
  | joinedStr => simp [visitOwn] at he
  | listLit elts => exact check_under_wrapping_node_eq _ _ _ _ _ e he
  | tupleLit elts f1 l1 => exact check_under_wrapping_node_eq _ _ _ _ _ e he
  | setLit elts => simp [visitOwn] at he
  | compare left comps => exact check_over_wrapping_node_eq _ _ _ _ _ e he
  | comprehension t i => exact check_over_wrapping_node_eq _ _ _ _ _ e he
  | other => simp [visitOwn] at he

mutual

theorem visitAll_eq : ∀ (t : PyTree), visitAll t = (visitedNodes t).flatMap visitOwn
  | PyTree.node nd children => by
      have hF := visitForest_eq children
      obtain ⟨sp, d⟩ := nd
      cases d
      case joinedStr => simp [visitAll, visitedNodes, visitOwn]
      all_goals simp [visitAll, visitedNodes, hF]

theorem visitForest_eq : ∀ (l : List PyTree),
    visitForest l = (visitedForest l).flatMap visitOwn
  | [] => by simp [visitForest, visitedForest]
  | t :: ts => by
      have h1 := visitAll_eq t
      have h2 := visitForest_eq ts
      simp [visitForest, visitedForest, h1, h2]

end

theorem mem_visitAll (t : PyTree) (e : Err) :
    e ∈ visitAll t ↔ ∃ nd ∈ visitedNodes t, e ∈ visitOwn nd := by
  rw [visitAll_eq]
  exact List.mem_flatMap

theorem ifexp_group_snd_ne_nil (span : Span) (prevTokenStart : Position)
    (body test orelse : Span) (isParen : Bool) (nextTokenEnd : Position) :
    ∀ p ∈ ifexp_by_line_no span prevTokenStart body test orelse isParen nextTokenEnd,
      p.2 ≠ [] := by
  unfold ifexp_by_line_no
  have h0 := grouper_snd_ne_nil span prevTokenStart [body, test, orelse] false false
  cases isParen
  · simpa using h0
  · rw [if_pos rfl]
    exact snd_ne_nil_addToBucket _ _ _ (snd_ne_nil_addToBucket _ _ _ h0)

theorem ifexp_group_ne_nil (span : Span) (prevTokenStart : Position)
    (body test orelse : Span) (isParen : Bool) (nextTokenEnd : Position) :
    ifexp_by_line_no span prevTokenStart body test orelse isParen nextTokenEnd ≠ [] := by
  unfold ifexp_by_line_no
  have h0 : get_nodes_by_line_number span prevTokenStart [body, test, orelse] false false ≠ [] :=
    grouper_ne_nil _ _ _ _ _ (Or.inr (Or.inl (by simp)))
  cases isParen
  · simpa using h0
  · rw [if_pos rfl]
    exact addToBucket_ne_nil _ _ _

theorem ifexp_group_nodup_keys (span : Span) (prevTokenStart : Position)
    (body test orelse : Span) (isParen : Bool) (nextTokenEnd : Position) :
    ((ifexp_by_line_no span prevTokenStart body test orelse isParen nextTokenEnd).map
      Prod.fst).Nodup := by
  unfold ifexp_by_line_no
  have h0 := grouper_nodup_keys span prevTokenStart [body, test, orelse] false false
  cases isParen
  · simpa using h0
  · rw [if_pos rfl]
    exact nodup_map_fst_addToBucket _ _ _ (nodup_map_fst_addToBucket _ _ _ h0)

theorem check_under_wrapping_positions (nd : NodeData) (reference : Position)
    (nodes : List Span) (ie is : Bool)
    (hne : get_nodes_by_line_number nd.span reference nodes ie is ≠ []) :
    ∀ e ∈ check_under_wrapping nd reference nodes ie is, e.positions ≠ [] := by
  intro e he
  simp only [check_under_wrapping] at he
  split at he
  · simp at he
  · simp only [List.mem_singleton] at he
    subst he
    simp only [record_error]
    intro hmap
    exact bucketAt_most_common_ne_nil _ hne (grouper_snd_ne_nil nd.span reference nodes ie is)
      (List.map_eq_nil_iff.mp hmap)

theorem check_over_wrapping_positions (nd : NodeData) (reference : Position)
    (nodes : List Span) (ie is : Bool)
    (hne : get_nodes_by_line_number nd.span reference nodes ie is ≠ []) :
    ∀ e ∈ check_over_wrapping nd reference nodes ie is, e.positions ≠ [] := by
  intro e he
  simp only [check_over_wrapping] at he
  split at he
  · simp at he
  · simp only [List.mem_singleton] at he
    subst he
    simp only [record_error]
    intro hmap
    have hflat := List.map_eq_nil_iff.mp hmap
    apply flatten_ne_nil_of_head
      (List.map Prod.snd (get_nodes_by_line_number nd.span reference nodes ie is))
      (fun hq => hne (List.map_eq_nil_iff.mp hq))
      (fun x hx => by
        obtain ⟨p, hp, rfl⟩ := List.mem_map.mp hx
        exact grouper_snd_ne_nil nd.span reference nodes ie is p hp)
      hflat

theorem visitOwn_positions_ne_nil (nd : NodeData) (hwf : dataWF nd.data = true) :
    ∀ e ∈ visitOwn nd, e.positions ≠ [] := by
  intro e he
  obtain ⟨sp, d⟩ := nd
  cases d with
  | classDef p bases kws =>
      exact check_under_wrapping_positions _ _ _ _ _
        (grouper_ne_nil _ _ _ _ _ (Or.inl rfl)) e he
  | functionDef a p po ar va kw ka re =>
      exact check_under_wrapping_positions _ _ _ _ _
        (grouper_ne_nil _ _ _ _ _ (Or.inl rfl)) e he
  | call p args kws =>
      simp only [visitOwn] at he
      split at he
      · rcases List.mem_append.mp he with he | he
        · split at he
          · simp at he
          · simp only [List.mem_singleton] at he
            subst he
            simp only [record_error]
            intro hmap
            exact bucketAt_most_common_ne_nil _
              (grouper_ne_nil _ _ _ _ _ (Or.inr (Or.inr rfl)))
              (grouper_snd_ne_nil _ _ _ _ _) (List.map_eq_nil_iff.mp hmap)
        · split at he
          · simp at he
          · simp only [List.mem_singleton] at he
            subst he
            simp only [record_error]
            intro hmap
            exact bucketAt_most_common_ne_nil _
              (grouper_ne_nil _ _ _ _ _ (Or.inl rfl))
              (grouper_snd_ne_nil _ _ _ _ _) (List.map_eq_nil_iff.mp hmap)
      · simp at he
  | dict keys values =>
      simp only [visitOwn] at he
      split at he
      · simp at he
      · split at he
        · simp at he
        · simp only [List.mem_singleton] at he
          subst he
          simp only [record_error]
          intro hmap
          exact bucketAt_most_common_ne_nil _
            (grouper_ne_nil _ _ _ _ _ (Or.inl rfl))
            (grouper_snd_ne_nil _ _ _ _ _) (List.map_eq_nil_iff.mp hmap)
  | ifExp pts b t o ip nte =>
      simp only [visitOwn] at he
      split at he
      · simp at he
      · simp only [List.mem_singleton] at he
        subst he
        simp only [record_error]
        intro hmap
        exact bucketAt_most_common_ne_nil _
          (ifexp_group_ne_nil sp pts b t o ip nte)
          (ifexp_group_snd_ne_nil sp pts b t o ip nte) (List.map_eq_nil_iff.mp hmap)
  | joinedStr => simp [visitOwn] at he
  | listLit elts =>
      exact check_under_wrapping_positions _ _ _ _ _
        (grouper_ne_nil _ _ _ _ _ (Or.inl rfl)) e he
  | tupleLit elts f1 l1 =>
      apply check_under_wrapping_positions _ _ _ _ _ ?_ e he
      apply grouper_ne_nil
      by_cases hel : elts = []
      · refine Or.inl ?_
        subst hel
        simpa [dataWF] using hwf
      · exact Or.inr (Or.inl hel)
  | setLit elts => simp [visitOwn] at he
  | compare left comps =>
      exact check_over_wrapping_positions _ _ _ _ _
        (grouper_ne_nil _ _ _ _ _ (Or.inl rfl)) e he
  | comprehension t i =>
      exact check_over_wrapping_positions _ _ _ _ _
        (grouper_ne_nil _ _ _ _ _ (Or.inr (Or.inl (by simp)))) e he
  | other => simp [visitOwn] at he

theorem summarisedGroups_ne_nil (nd : NodeData) (hwf : dataWF nd.data = true) :
    ∀ g ∈ summarisedGroups nd, g ≠ [] := by
  intro g hg
  obtain ⟨sp, d⟩ := nd
  cases d with
  | classDef p bases kws =>
      simp only [summarisedGroups, List.mem_singleton] at hg
      subst hg
      exact grouper_ne_nil _ _ _ _ _ (Or.inl rfl)
  | functionDef a p po ar va kw ka re =>
      simp only [summarisedGroups, List.mem_singleton] at hg
      subst hg
      exact grouper_ne_nil _ _ _ _ _ (Or.inl rfl)
  | call p args kws =>
      simp only [summarisedGroups] at hg
      split at hg
      · rcases List.mem_cons.mp hg with rfl | hg
        · exact grouper_ne_nil _ _ _ _ _ (Or.inr (Or.inr rfl))
        · rcases List.mem_singleton.mp hg with rfl
          exact grouper_ne_nil _ _ _ _ _ (Or.inl rfl)
      · simp at hg
  | dict keys values =>
      simp only [summarisedGroups, List.mem_singleton] at hg
      subst hg
      exact grouper_ne_nil _ _ _ _ _ (Or.inl rfl)
  | ifExp pts b t o ip nte =>
      simp only [summarisedGroups, List.mem_singleton] at hg
      subst hg
      exact ifexp_group_ne_nil sp pts b t o ip nte
  | joinedStr => simp [summarisedGroups] at hg
  | listLit elts =>
      simp only [summarisedGroups, List.mem_singleton] at hg
      subst hg
      exact grouper_ne_nil _ _ _ _ _ (Or.inl rfl)
  | tupleLit elts f1 l1 =>
      simp only [summarisedGroups, List.mem_singleton] at hg
      subst hg
      apply grouper_ne_nil
      by_cases hel : elts = []
      · refine Or.inl ?_
        subst hel
        simpa [dataWF] using hwf
      · exact Or.inr (Or.inl hel)
  | setLit elts => simp [summarisedGroups] at hg
  | compare left comps => simp [summarisedGroups] at hg
  | comprehension t i => simp [summarisedGroups] at hg
  | other => simp [summarisedGroups] at hg

theorem check_under_eq_nil_of_single_column (nd : NodeData) (reference : Position)
    (nodes : List Span) (ie is : Bool)
    (hne : get_nodes_by_line_number nd.span reference nodes ie is ≠ [])
    (hsc : specSingleColumn (get_nodes_by_line_number nd.span reference nodes ie is)) :
    check_under_wrapping nd reference nodes ie is = [] :=
  (check_under_wrapping_spec nd reference nodes ie is hne).1 (Or.inr hsc)

theorem mem_keys_grouper_of_child (node : Span) (reference : Position)
    (nodes : List Span) (ie is : Bool) (x : Span) (hx : x ∈ nodes) :
    x.startPos.line ∈ (get_nodes_by_line_number node reference nodes ie is).map Prod.fst := by
  apply mem_keys_of_bucketAt_ne_nil
  rw [bucketAt_grouper]
  intro hc
  rcases List.append_eq_nil.mp hc with ⟨hc1, -⟩
  rcases List.append_eq_nil.mp hc1 with ⟨-, hc2⟩
  exact childrenAtLine_ne_nil nodes 0 x hx hc2

/-- C3: for every grouper invocation with `includeEnd` true, the node itself
is appended to the bucket at the node's end line exactly when no child's end
position equals the position one column before the node's end position, or a
bucket already exists at the end line; in the remaining (hugging) case the
grouping is the same as with `includeEnd` false. -/
theorem claim_C3 (node : Span) (reference : Position) (nodes : List Span) (is : Bool) :
    (((¬ ∃ x ∈ nodes, get_end_position x =
          (⟨node.endPos.line, node.endPos.col - 1⟩ : Position)) ∨
        node.endPos.line ∈
          (get_nodes_by_line_number node reference nodes false is).map Prod.fst) ↔
      bucketAt (get_nodes_by_line_number node reference nodes true is) node.endPos.line =
        bucketAt (get_nodes_by_line_number node reference nodes false is) node.endPos.line ++
          [GElem.self]) ∧
    ((¬ ((¬ ∃ x ∈ nodes, get_end_position x =
          (⟨node.endPos.line, node.endPos.col - 1⟩ : Position)) ∨
        node.endPos.line ∈
          (get_nodes_by_line_number node reference nodes false is).map Prod.fst)) →
      get_nodes_by_line_number node reference nodes true is =
        get_nodes_by_line_number node reference nodes false is) := by
  have hg1eq : get_nodes_by_line_number node reference nodes false is =
      grouper_g1 reference nodes is := rfl
  have hcond : ((¬ ∃ x ∈ nodes, get_end_position x =
        (⟨node.endPos.line, node.endPos.col - 1⟩ : Position)) ∨
      node.endPos.line ∈
        (get_nodes_by_line_number node reference nodes false is).map Prod.fst) ↔
      endAppendCond node nodes (grouper_g1 reference nodes is) := by
    rw [hg1eq]
    unfold endAppendCond
    constructor
    · rintro (h | h)
      · exact Or.inl (fun hm => h (List.mem_map.mp hm))
      · exact Or.inr h
    · rintro (h | h)
      · exact Or.inl (fun hm => h (List.mem_map.mpr hm))
      · exact Or.inr h
  constructor
  · rw [hcond]
    constructor
    · intro h
      rw [grouper_eq, if_pos rfl, if_pos h, bucketAt_addToBucket_same, hg1eq]
    · intro h
      by_contra hc
      rw [grouper_eq, if_pos rfl, if_neg hc, hg1eq] at h
      have := congrArg List.length h
      simp at this
  · intro h
    rw [hcond] at h
    rw [grouper_eq, if_pos rfl, if_neg h, hg1eq]

theorem claim_C3_witness :
    (¬ (((¬ ∃ x ∈ ([⟨⟨1, 5⟩, ⟨3, 1⟩⟩] : List Span), get_end_position x =
          (⟨(⟨⟨1, 0⟩, ⟨3, 2⟩⟩ : Span).endPos.line,
            (⟨⟨1, 0⟩, ⟨3, 2⟩⟩ : Span).endPos.col - 1⟩ : Position)) ∨
        (⟨⟨1, 0⟩, ⟨3, 2⟩⟩ : Span).endPos.line ∈
          (get_nodes_by_line_number ⟨⟨1, 0⟩, ⟨3, 2⟩⟩ ⟨1, 4⟩ [⟨⟨1, 5⟩, ⟨3, 1⟩⟩]
            false true).map Prod.fst))) ∧
    get_nodes_by_line_number ⟨⟨1, 0⟩, ⟨3, 2⟩⟩ ⟨1, 4⟩ [⟨⟨1, 5⟩, ⟨3, 1⟩⟩] true true =
      get_nodes_by_line_number ⟨⟨1, 0⟩, ⟨3, 2⟩⟩ ⟨1, 4⟩ [⟨⟨1, 5⟩, ⟨3, 1⟩⟩] false true :=
  ⟨by decide, (claim_C3 ⟨⟨1, 0⟩, ⟨3, 2⟩⟩ ⟨1, 4⟩ [⟨⟨1, 5⟩, ⟨3, 1⟩⟩] true).2 (by decide)⟩

/-- C9: the analysis is a pure function, so two runs on the same tree produce
the identical violation sequence; and when several lines tie for the largest
bucket, the summarised most-crowded line is the first such line in the
grouping's insertion order. -/
theorem claim_C9 :
    (∀ t : PyTree, visitAll t = visitAll t) ∧
    (∀ g : LineGroup, g ≠ [] →
      specFirstMostCrowded g (summarise_lines g).most_common_line_number) :=
  ⟨fun _ => rfl, fun g hg => most_common_line_spec g hg⟩

theorem claim_C9_witness :
    ([(1, [GElem.self, GElem.child 0]), (2, [GElem.child 1, GElem.child 2])] :
      LineGroup) ≠ [] ∧
    specFirstMostCrowded
      [(1, [GElem.self, GElem.child 0]), (2, [GElem.child 1, GElem.child 2])]
      (summarise_lines
        [(1, [GElem.self, GElem.child 0]), (2, [GElem.child 1, GElem.child 2])]).most_common_line_number :=
  ⟨by decide,
    claim_C9.2 [(1, [GElem.self, GElem.child 0]), (2, [GElem.child 1, GElem.child 2])]
      (by decide)⟩

/-- C5 as stated is false on the code: an unparenthesised tuple (here the
subscript tuple of `d[a, b,\nc]`, whose first token is not `(`) still gets a
violation when its elements are neither on a single line nor one per line. -/
theorem claim_C5_counterexample :
    visitOwn ⟨⟨⟨1, 2⟩, ⟨2, 1⟩⟩,
      ConstructData.tupleLit
        [⟨⟨1, 2⟩, ⟨1, 3⟩⟩, ⟨⟨1, 5⟩, ⟨1, 6⟩⟩, ⟨⟨2, 0⟩, ⟨2, 1⟩⟩] false false⟩ ≠ [] := by
  decide

/-- C5 amended: a tuple that is not syntactically parenthesised is still
checked, but with its own start and end excluded from the grouping: whenever
it has at least one element, a violation is produced exactly when the
elements' own line grouping is neither single-line nor single-column, and the
tuple's delimiters never contribute to that grouping. -/
theorem claim_C5_amended (span : Span) (elts : List Span) (f1 l1 : Bool)
    (hp : (f1 && l1) = false) (helts : elts ≠ []) :
    specUnderOutcome (visitOwn ⟨span, ConstructData.tupleLit elts f1 l1⟩)
      ⟨span, ConstructData.tupleLit elts f1 l1⟩ elts
      (get_nodes_by_line_number span span.startPos elts false false) := by
  have h := check_under_wrapping_spec ⟨span, ConstructData.tupleLit elts f1 l1⟩
    span.startPos elts false false
    (grouper_ne_nil _ _ _ _ _ (Or.inr (Or.inl helts)))
  have hv : visitOwn ⟨span, ConstructData.tupleLit elts f1 l1⟩ =
      check_under_wrapping ⟨span, ConstructData.tupleLit elts f1 l1⟩
        span.startPos elts false false := by
    simp only [visitOwn, hp]
  rw [hv]
  exact h

theorem claim_C5_witness :
    ((false && false) = false ∧ ([⟨⟨1, 0⟩, ⟨1, 1⟩⟩] : List Span) ≠ []) ∧
    specUnderOutcome
      (visitOwn ⟨⟨⟨1, 0⟩, ⟨1, 6⟩⟩,
        ConstructData.tupleLit [⟨⟨1, 0⟩, ⟨1, 1⟩⟩] false false⟩)
      ⟨⟨⟨1, 0⟩, ⟨1, 6⟩⟩, ConstructData.tupleLit [⟨⟨1, 0⟩, ⟨1, 1⟩⟩] false false⟩
      [⟨⟨1, 0⟩, ⟨1, 1⟩⟩]
      (get_nodes_by_line_number ⟨⟨1, 0⟩, ⟨1, 6⟩⟩ (⟨⟨1, 0⟩, ⟨1, 6⟩⟩ : Span).startPos
        [⟨⟨1, 0⟩, ⟨1, 1⟩⟩] false false) :=
  ⟨⟨by decide, by decide⟩,
    claim_C5_amended ⟨⟨1, 0⟩, ⟨1, 6⟩⟩ [⟨⟨1, 0⟩, ⟨1, 1⟩⟩] false false
      (by decide) (by decide)⟩

theorem bucketAt_grouper_ff (node : Span) (reference : Position) (nodes : List Span)
    (l : Nat) :
    bucketAt (get_nodes_by_line_number node reference nodes false false) l =
      childrenAtLine 0 nodes l := by
  rw [bucketAt_grouper]
  simp

theorem ifexp_group_single_column (span : Span) (pts : Position) (b t o : Span)
    (ip : Bool) (nte : Position)
    (hnd : ([b, t, o].map fun x => x.startPos.line).Nodup)
    (hip : ip = true → pts.line ∉ ([b, t, o].map fun x => x.startPos.line) ∧
      nte.line ∉ ([b, t, o].map fun x => x.startPos.line) ∧ nte.line ≠ pts.line) :
    specSingleColumn (ifexp_by_line_no span pts b t o ip nte) := by
  cases ip
  · have h := grouper_single_column span pts [b, t, o] false false hnd
      (fun h => absurd h (by decide)) (fun h => absurd h (by decide))
      (fun h _ => absurd h (by decide))
    simpa [ifexp_by_line_no] using h
  · obtain ⟨h1, h2, h3⟩ := hip rfl
    intro p hp
    have hkeys := ifexp_group_nodup_keys span pts b t o true nte
    have hbk := bucketAt_of_mem _ hkeys p hp
    rw [← hbk]
    unfold ifexp_by_line_no
    rw [if_pos rfl]
    have hcnt : (childrenAtLine 0 [b, t, o] p.1).length ≤ 1 := by
      rw [childrenAtLine_length]
      exact List.nodup_iff_count_le_one.mp hnd _
    rcases eq_or_ne nte.line p.1 with he | he
    · rw [he, bucketAt_addToBucket_same]
      rcases eq_or_ne pts.line p.1 with he2 | he2
      · exact absurd (he.trans he2.symm) h3
      · rw [bucketAt_addToBucket_ne _ _ _ _ (Ne.symm he2), bucketAt_grouper_ff]
        have hz : (childrenAtLine 0 [b, t, o] p.1).length = 0 := by
          rw [childrenAtLine_length]
          exact List.count_eq_zero.mpr (he ▸ h2)
        simp only [List.length_append, List.length_singleton, hz]
        omega
    · rw [bucketAt_addToBucket_ne _ _ _ _ (Ne.symm he)]
      rcases eq_or_ne pts.line p.1 with he2 | he2
      · rw [he2, bucketAt_addToBucket_same, bucketAt_grouper_ff]
        have hz : (childrenAtLine 0 [b, t, o] p.1).length = 0 := by
          rw [childrenAtLine_length]
          exact List.count_eq_zero.mpr (he2 ▸ h1)
        simp only [List.length_append, List.length_singleton, hz]
        omega
      · rw [bucketAt_addToBucket_ne _ _ _ _ (Ne.symm he2), bucketAt_grouper_ff]
        exact hcnt

/-- C4 as stated is false for the over-wrap constructs it quantifies over:
a comprehension clause whose target and iterable each occupy their own
distinct line (with the clause's start and end never included) still produces
a violation. -/
theorem claim_C4_counterexample :
    (⟨⟨3, 8⟩, ⟨3, 9⟩⟩ : Span).startPos.line ≠ (⟨⟨4, 7⟩, ⟨4, 18⟩⟩ : Span).startPos.line ∧
    visitOwn ⟨⟨⟨3, 4⟩, ⟨4, 18⟩⟩,
      ConstructData.comprehension ⟨⟨3, 8⟩, ⟨3, 9⟩⟩ ⟨⟨4, 7⟩, ⟨4, 18⟩⟩⟩ ≠ [] := by
  constructor
  · decide
  · decide

/-- C4 amended: the one-per-line invariant holds for every under-wrap-checked
construct (class/function headers, list and tuple literals, dicts,
conditional expressions, calls): if the checked children each occupy a
distinct line and the construct's own anchor and end lines, where included,
collide neither with any child's line nor with each other, no violation is
produced.  It does not hold for the over-wrap-checked constructs: a
comprehension clause or comparison chain whose elements sit on two distinct
lines always produces a violation. -/
theorem claim_C4_amended :
    (∀ (span : Span) (p : Position) (bases kws : List Span),
      ((bases ++ kws).map fun x => x.startPos.line).Nodup →
      p.line ∉ ((bases ++ kws).map fun x => x.startPos.line) →
      visitOwn ⟨span, ConstructData.classDef p bases kws⟩ = []) ∧
    (∀ (span : Span) (a : Bool) (p : Position) (po ar : List Span) (va : Option Span)
        (kw : List Span) (ka re : Option Span),
      ((functiondef_nodes po ar va kw ka re).map fun x => x.startPos.line).Nodup →
      p.line ∉ ((functiondef_nodes po ar va kw ka re).map fun x => x.startPos.line) →
      visitOwn ⟨span, ConstructData.functionDef a p po ar va kw ka re⟩ = []) ∧
    (∀ (span : Span) (elts : List Span),
      (elts.map fun x => x.startPos.line).Nodup →
      span.startPos.line ∉ (elts.map fun x => x.startPos.line) →
      span.endPos.line ∉ (elts.map fun x => x.startPos.line) →
      span.endPos.line ≠ span.startPos.line →
      visitOwn ⟨span, ConstructData.listLit elts⟩ = []) ∧
    (∀ (span : Span) (elts : List Span) (f1 l1 : Bool),
      (elts.map fun x => x.startPos.line).Nodup →
      (elts ≠ [] ∨ (f1 && l1) = true) →
      ((f1 && l1) = true →
        span.startPos.line ∉ (elts.map fun x => x.startPos.line) ∧
        span.endPos.line ∉ (elts.map fun x => x.startPos.line) ∧
        span.endPos.line ≠ span.startPos.line) →
      visitOwn ⟨span, ConstructData.tupleLit elts f1 l1⟩ = []) ∧
    (∀ (span : Span) (keys : List (Option Span)) (values : List Span),
      ((keys.filterMap id).map fun x => x.startPos.line).Nodup →
      span.startPos.line ∉ ((keys.filterMap id).map fun x => x.startPos.line) →
      span.endPos.line ∉ ((keys.filterMap id).map fun x => x.startPos.line) →
      span.endPos.line ≠ span.startPos.line →
      visitOwn ⟨span, ConstructData.dict keys values⟩ = []) ∧
    (∀ (span : Span) (pts : Position) (b t o : Span) (ip : Bool) (nte : Position),
      ([b, t, o].map fun x => x.startPos.line).Nodup →
      (ip = true → pts.line ∉ ([b, t, o].map fun x => x.startPos.line) ∧
        nte.line ∉ ([b, t, o].map fun x => x.startPos.line) ∧ nte.line ≠ pts.line) →
      visitOwn ⟨span, ConstructData.ifExp pts b t o ip nte⟩ = []) ∧
    (∀ (span : Span) (p : Position) (args kws : List Span),
      ((args ++ kws).map fun x => x.startPos.line).Nodup →
      p.line ∉ ((args ++ kws).map fun x => x.startPos.line) →
      span.endPos.line ∉ ((args ++ kws).map fun x => x.startPos.line) →
      span.endPos.line ≠ p.line →
      visitOwn ⟨span, ConstructData.call p args kws⟩ = []) ∧
    (∀ (span : Span) (t i : Span),
      t.startPos.line ≠ i.startPos.line →
      visitOwn ⟨span, ConstructData.comprehension t i⟩ ≠ []) ∧
    (∀ (span : Span) (left : Span) (comps : List Span) (c : Span),
      c ∈ comps → c.startPos.line ≠ left.startPos.line →
      visitOwn ⟨span, ConstructData.compare left comps⟩ ≠ []) := by
  refine ⟨?_, ?_, ?_, ?_, ?_, ?_, ?_, ?_, ?_⟩
  · intro span p bases kws hnd hp
    exact check_under_eq_nil_of_single_column _ _ _ _ _
      (grouper_ne_nil _ _ _ _ _ (Or.inl rfl))
      (grouper_single_column _ _ _ _ _ hnd (fun _ => hp)
        (fun h => absurd h (by decide)) (fun _ h => absurd h (by decide)))
  · intro span a p po ar va kw ka re hnd hp
    exact check_under_eq_nil_of_single_column _ _ _ _ _
      (grouper_ne_nil _ _ _ _ _ (Or.inl rfl))
      (grouper_single_column _ _ _ _ _ hnd (fun _ => hp)
        (fun h => absurd h (by decide)) (fun _ h => absurd h (by decide)))
  · intro span elts hnd h1 h2 h3
    exact check_under_eq_nil_of_single_column _ _ _ _ _
      (grouper_ne_nil _ _ _ _ _ (Or.inl rfl))
      (grouper_single_column _ _ _ _ _ hnd (fun _ => h1) (fun _ => h2) (fun _ _ => h3))
  · intro span elts f1 l1 hnd hor hcoll
    cases hpp : f1 && l1
    · have helts : elts ≠ [] := by
        rcases hor with h | h
        · exact h
        · rw [hpp] at h
          exact absurd h (by decide)
      have hv : visitOwn ⟨span, ConstructData.tupleLit elts f1 l1⟩ =
          check_under_wrapping ⟨span, ConstructData.tupleLit elts f1 l1⟩
            span.startPos elts false false := by
        simp only [visitOwn, hpp]
      rw [hv]
      exact check_under_eq_nil_of_single_column _ _ _ _ _
        (grouper_ne_nil _ _ _ _ _ (Or.inr (Or.inl helts)))
        (grouper_single_column _ _ _ _ _ hnd (fun h => absurd h (by decide))
          (fun h => absurd h (by decide)) (fun h _ => absurd h (by decide)))
    · obtain ⟨hc1, hc2, hc3⟩ := hcoll hpp
      have hv : visitOwn ⟨span, ConstructData.tupleLit elts f1 l1⟩ =
          check_under_wrapping ⟨span, ConstructData.tupleLit elts f1 l1⟩
            span.startPos elts true true := by
        simp only [visitOwn, hpp]
      rw [hv]
      exact check_under_eq_nil_of_single_column _ _ _ _ _
        (grouper_ne_nil _ _ _ _ _ (Or.inl rfl))
        (grouper_single_column _ _ _ _ _ hnd (fun _ => hc1) (fun _ => hc2)
          (fun _ _ => hc3))
  · intro span keys values hnd h1 h2 h3
    have hne := grouper_ne_nil span span.startPos (keys.filterMap id) true true
      (Or.inl rfl)
    have hsc := grouper_single_column span span.startPos (keys.filterMap id) true true
      hnd (fun _ => h1) (fun _ => h2) (fun _ _ => h3)
    have hslc := (summary_slc_iff _ hne (grouper_nodup_keys _ _ _ _ _)
      (grouper_snd_ne_nil _ _ _ _ _)).mpr (Or.inr hsc)
    simp only [visitOwn]
    split
    · rfl
    · next h => exact absurd hslc h
  · intro span pts b t o ip nte hnd hip
    have hne := ifexp_group_ne_nil span pts b t o ip nte
    have hsc := ifexp_group_single_column span pts b t o ip nte hnd hip
    have hslc := (summary_slc_iff _ hne (ifexp_group_nodup_keys span pts b t o ip nte)
      (ifexp_group_snd_ne_nil span pts b t o ip nte)).mpr (Or.inr hsc)
    simp only [visitOwn]
    split
    · rfl
    · next h => exact absurd hslc h
  · intro span p args kws hnd h1 h2 h3
    have hmap : ((args ++ kws).map fun x => x.startPos.line) =
        (args.map fun x => x.startPos.line) ++ (kws.map fun x => x.startPos.line) :=
      List.map_append _ _ _
    rw [hmap] at hnd h1 h2
    have hargs_nd := (List.nodup_append.mp hnd).1
    have hkws_nd := (List.nodup_append.mp hnd).2.1
    have h1a : p.line ∉ (args.map fun x => x.startPos.line) :=
      fun hm => h1 (List.mem_append.mpr (Or.inl hm))
    have h1k : p.line ∉ (kws.map fun x => x.startPos.line) :=
      fun hm => h1 (List.mem_append.mpr (Or.inr hm))
    have h2a : span.endPos.line ∉ (args.map fun x => x.startPos.line) :=
      fun hm => h2 (List.mem_append.mpr (Or.inl hm))
    have h2k : span.endPos.line ∉ (kws.map fun x => x.startPos.line) :=
      fun hm => h2 (List.mem_append.mpr (Or.inr hm))
    have hsck := grouper_single_column span p kws true args.isEmpty hkws_nd
      (fun _ => h1k) (fun _ => h2k) (fun _ _ => h3)
    have hknef := grouper_ne_nil span p kws true args.isEmpty (Or.inr (Or.inr rfl))
    have hkcol := (is_single_column_iff _ hknef (grouper_snd_ne_nil _ _ _ _ _)).mpr hsck
    have hscp := grouper_single_column span p args kws.isEmpty true hargs_nd
      (fun _ => h1a) (fun _ => h2a) (fun _ _ => h3)
    have hpnef := grouper_ne_nil span p args kws.isEmpty true (Or.inl rfl)
    have hpslc := (summary_slc_iff _ hpnef (grouper_nodup_keys _ _ _ _ _)
      (grouper_snd_ne_nil _ _ _ _ _)).mpr (Or.inr hscp)
    simp [visitOwn, hkcol, hpslc]
  · intro span t i hne
    simp only [visitOwn, check_over_wrapping]
    split
    · next hlen =>
        exfalso
        have hm1 := mem_keys_grouper_of_child span span.startPos [t, i] false false t
          (by simp)
        have hm2 := mem_keys_grouper_of_child span span.startPos [t, i] false false i
          (by simp)
        have hlen' : ((get_nodes_by_line_number span span.startPos [t, i] false
            false).map Prod.fst).length = 1 := by
          rw [List.length_map]
          simpa using hlen
        obtain ⟨k, hk⟩ := List.length_eq_one.mp hlen'
        rw [hk] at hm1 hm2
        simp only [List.mem_singleton] at hm1 hm2
        exact hne (hm1.trans hm2.symm)
    · simp
  · intro span left comps c hc hne
    simp only [visitOwn, check_over_wrapping]
    split
    · next hlen =>
        exfalso
        have hm1 := mem_keys_grouper_of_child span left.startPos (left :: comps)
          true true left (List.mem_cons_self _ _)
        have hm2 := mem_keys_grouper_of_child span left.startPos (left :: comps)
          true true c (List.mem_cons_of_mem _ hc)
        have hlen' : ((get_nodes_by_line_number span left.startPos (left :: comps)
            true true).map Prod.fst).length = 1 := by
          rw [List.length_map]
          simpa using hlen
        obtain ⟨k, hk⟩ := List.length_eq_one.mp hlen'
        rw [hk] at hm1 hm2
        simp only [List.mem_singleton] at hm1 hm2
        exact hne (hm2.trans hm1.symm)
    · simp

theorem claim_C4_witness :
    ((([⟨⟨2, 4⟩, ⟨2, 5⟩⟩, ⟨⟨3, 4⟩, ⟨3, 5⟩⟩] : List Span).map
        fun x => x.startPos.line).Nodup ∧
      (⟨⟨1, 4⟩, ⟨4, 1⟩⟩ : Span).startPos.line ∉
        (([⟨⟨2, 4⟩, ⟨2, 5⟩⟩, ⟨⟨3, 4⟩, ⟨3, 5⟩⟩] : List Span).map
          fun x => x.startPos.line) ∧
      (⟨⟨1, 4⟩, ⟨4, 1⟩⟩ : Span).endPos.line ∉
        (([⟨⟨2, 4⟩, ⟨2, 5⟩⟩, ⟨⟨3, 4⟩, ⟨3, 5⟩⟩] : List Span).map
          fun x => x.startPos.line) ∧
      (⟨⟨1, 4⟩, ⟨4, 1⟩⟩ : Span).endPos.line ≠ (⟨⟨1, 4⟩, ⟨4, 1⟩⟩ : Span).startPos.line) ∧
    visitOwn ⟨⟨⟨1, 4⟩, ⟨4, 1⟩⟩,
      ConstructData.listLit [⟨⟨2, 4⟩, ⟨2, 5⟩⟩, ⟨⟨3, 4⟩, ⟨3, 5⟩⟩]⟩ = [] :=
  ⟨⟨by decide, by decide, by decide, by decide⟩,
    claim_C4_amended.2.2.1 ⟨⟨1, 4⟩, ⟨4, 1⟩⟩ [⟨⟨2, 4⟩, ⟨2, 5⟩⟩, ⟨⟨3, 4⟩, ⟨3, 5⟩⟩]
      (by decide) (by decide) (by decide) (by decide)⟩

/-- C6: when a dict's key grouping is neither single-line nor single-column,
the Under violation is suppressed exactly when the dict has one single
key/value pair whose value spans precisely the dict's own start and end
lines; a dict with two or more entries always reports. -/
theorem claim_C6 (span : Span) (keys : List (Option Span)) (values : List Span)
    (h : ¬ (specSingleLine (get_nodes_by_line_number span span.startPos
        (keys.filterMap id) true true) ∨
      specSingleColumn (get_nodes_by_line_number span span.startPos
        (keys.filterMap id) true true))) :
    (visitOwn ⟨span, ConstructData.dict keys values⟩ = [] ↔
      specSingleEntryHugging span values) ∧
    (2 ≤ values.length → visitOwn ⟨span, ConstructData.dict keys values⟩ ≠ []) := by
  have hne := grouper_ne_nil span span.startPos (keys.filterMap id) true true (Or.inl rfl)
  have hslc : ¬ ((summarise_lines (get_nodes_by_line_number span span.startPos
      (keys.filterMap id) true true)).is_single_line_or_column = true) :=
    fun hc => h ((summary_slc_iff _ hne (grouper_nodup_keys _ _ _ _ _)
      (grouper_snd_ne_nil _ _ _ _ _)).mp hc)
  have hv : visitOwn ⟨span, ConstructData.dict keys values⟩ =
      (if check_single_entry_hugging span values then []
       else [record_error ⟨span, ConstructData.dict keys values⟩ (keys.filterMap id)
        (bucketAt (get_nodes_by_line_number span span.startPos (keys.filterMap id)
          true true)
          (summarise_lines (get_nodes_by_line_number span span.startPos
            (keys.filterMap id) true true)).most_common_line_number)
        ErrKind.under]) := by
    simp only [visitOwn]
    rw [if_neg hslc]
  have hugiff : check_single_entry_hugging span values = true ↔
      specSingleEntryHugging span values := by
    unfold check_single_entry_hugging specSingleEntryHugging
    match values with
    | [] => simp
    | [v] => simp [Bool.and_eq_true, beq_iff_eq]
    | v :: w :: rest => simp
  rw [hv]
  constructor
  · constructor
    · intro hnil
      by_cases hb : check_single_entry_hugging span values = true
      · exact hugiff.mp hb
      · rw [if_neg hb] at hnil
        exact absurd hnil (by simp)
    · intro hhug
      rw [if_pos (hugiff.mpr hhug)]
  · intro hlen
    have hb : check_single_entry_hugging span values = false := by
      cases values with
      | nil => simp at hlen
      | cons v vs =>
          cases vs with
          | nil => simp at hlen
          | cons w rest => rfl
    rw [if_neg (by simp [hb])]
    simp

theorem claim_C6_witness :
    (¬ (specSingleLine (get_nodes_by_line_number ⟨⟨1, 8⟩, ⟨3, 2⟩⟩
        (⟨⟨1, 8⟩, ⟨3, 2⟩⟩ : Span).startPos
        (([some ⟨⟨1, 9⟩, ⟨1, 14⟩⟩] : List (Option Span)).filterMap id) true true) ∨
      specSingleColumn (get_nodes_by_line_number ⟨⟨1, 8⟩, ⟨3, 2⟩⟩
        (⟨⟨1, 8⟩, ⟨3, 2⟩⟩ : Span).startPos
        (([some ⟨⟨1, 9⟩, ⟨1, 14⟩⟩] : List (Option Span)).filterMap id) true true))) ∧
    ((visitOwn ⟨⟨⟨1, 8⟩, ⟨3, 2⟩⟩,
        ConstructData.dict [some ⟨⟨1, 9⟩, ⟨1, 14⟩⟩] [⟨⟨1, 16⟩, ⟨3, 1⟩⟩]⟩ = [] ↔
      specSingleEntryHugging ⟨⟨1, 8⟩, ⟨3, 2⟩⟩ [⟨⟨1, 16⟩, ⟨3, 1⟩⟩]) ∧
    (2 ≤ ([⟨⟨1, 16⟩, ⟨3, 1⟩⟩] : List Span).length →
      visitOwn ⟨⟨⟨1, 8⟩, ⟨3, 2⟩⟩,
        ConstructData.dict [some ⟨⟨1, 9⟩, ⟨1, 14⟩⟩] [⟨⟨1, 16⟩, ⟨3, 1⟩⟩]⟩ ≠ [])) :=
  ⟨by decide,
    claim_C6 ⟨⟨1, 8⟩, ⟨3, 2⟩⟩ [some ⟨⟨1, 9⟩, ⟨1, 14⟩⟩] [⟨⟨1, 16⟩, ⟨3, 1⟩⟩] (by decide)⟩

/-- C2: for every call, when the combined group over all arguments spans one
line no violation is emitted for the call; otherwise the keyword arguments
are grouped with start included only when there are no positional arguments
and emit an Under violation exactly when not single-column, and the
positional arguments are grouped with end included only when there are no
keyword arguments and emit an Under violation exactly when neither
single-line nor single-column. -/
theorem claim_C2 (span : Span) (p : Position) (args kws : List Span) :
    (specSingleLine (get_nodes_by_line_number span p (args ++ kws) true true) →
      visitOwn ⟨span, ConstructData.call p args kws⟩ = []) ∧
    (¬ specSingleLine (get_nodes_by_line_number span p (args ++ kws) true true) →
      ∃ kwErrs posErrs,
        visitOwn ⟨span, ConstructData.call p args kws⟩ = kwErrs ++ posErrs ∧
        specKwOutcome kwErrs ⟨span, ConstructData.call p args kws⟩ kws
          (get_nodes_by_line_number span p kws true args.isEmpty) ∧
        specUnderOutcome posErrs ⟨span, ConstructData.call p args kws⟩ args
          (get_nodes_by_line_number span p args kws.isEmpty true)) := by
  have hcne := grouper_ne_nil span p (args ++ kws) true true (Or.inl rfl)
  have hcnd := grouper_nodup_keys span p (args ++ kws) true true
  have hlen_iff := specSingleLine_iff_length _ hcnd
  constructor
  · intro hsl
    have hlen := hlen_iff.mp hsl
    simp only [visitOwn]
    rw [if_neg (by omega)]
  · intro hsl
    have hpos : 0 < (get_nodes_by_line_number span p (args ++ kws) true true).length :=
      List.length_pos.mpr hcne
    have hlen : 1 < (get_nodes_by_line_number span p (args ++ kws) true true).length := by
      have hne1 : (get_nodes_by_line_number span p (args ++ kws) true true).length ≠ 1 :=
        fun hc => hsl (hlen_iff.mpr hc)
      omega
    have hkne := grouper_ne_nil span p kws true args.isEmpty (Or.inr (Or.inr rfl))
    have hkb := grouper_snd_ne_nil span p kws true args.isEmpty
    have hpne := grouper_ne_nil span p args kws.isEmpty true (Or.inl rfl)
    refine ⟨if (summarise_lines (get_nodes_by_line_number span p kws true
          args.isEmpty)).is_single_column = true then []
        else
          [record_error ⟨span, ConstructData.call p args kws⟩ kws
            (bucketAt (get_nodes_by_line_number span p kws true args.isEmpty)
              (summarise_lines (get_nodes_by_line_number span p kws true
                args.isEmpty)).most_common_line_number) ErrKind.under],
      check_under_wrapping ⟨span, ConstructData.call p args kws⟩ p args
        kws.isEmpty true, ?_, ?_, ?_⟩
    · simp only [visitOwn]
      rw [if_pos hlen]
      rfl
    · constructor
      · intro hsc
        rw [if_pos ((is_single_column_iff _ hkne hkb).mpr hsc)]
      · intro hsc
        rw [if_neg (fun hc => hsc ((is_single_column_iff _ hkne hkb).mp hc))]
        exact ⟨_, most_common_line_spec _ hkne, rfl⟩
    · exact check_under_wrapping_spec ⟨span, ConstructData.call p args kws⟩ p args
        kws.isEmpty true hpne

theorem claim_C2_witness :
    (¬ specSingleLine (get_nodes_by_line_number ⟨⟨1, 0⟩, ⟨3, 1⟩⟩ ⟨1, 5⟩
      ([⟨⟨1, 5⟩, ⟨1, 7⟩⟩, ⟨⟨1, 9⟩, ⟨1, 15⟩⟩] ++
        [⟨⟨2, 4⟩, ⟨2, 20⟩⟩, ⟨⟨2, 22⟩, ⟨2, 35⟩⟩]) true true)) ∧
    (∃ kwErrs posErrs,
      visitOwn ⟨⟨⟨1, 0⟩, ⟨3, 1⟩⟩,
        ConstructData.call ⟨1, 5⟩ [⟨⟨1, 5⟩, ⟨1, 7⟩⟩, ⟨⟨1, 9⟩, ⟨1, 15⟩⟩]
          [⟨⟨2, 4⟩, ⟨2, 20⟩⟩, ⟨⟨2, 22⟩, ⟨2, 35⟩⟩]⟩ = kwErrs ++ posErrs ∧
      specKwOutcome kwErrs ⟨⟨⟨1, 0⟩, ⟨3, 1⟩⟩,
          ConstructData.call ⟨1, 5⟩ [⟨⟨1, 5⟩, ⟨1, 7⟩⟩, ⟨⟨1, 9⟩, ⟨1, 15⟩⟩]
            [⟨⟨2, 4⟩, ⟨2, 20⟩⟩, ⟨⟨2, 22⟩, ⟨2, 35⟩⟩]⟩
        [⟨⟨2, 4⟩, ⟨2, 20⟩⟩, ⟨⟨2, 22⟩, ⟨2, 35⟩⟩]
        (get_nodes_by_line_number ⟨⟨1, 0⟩, ⟨3, 1⟩⟩ ⟨1, 5⟩
          [⟨⟨2, 4⟩, ⟨2, 20⟩⟩, ⟨⟨2, 22⟩, ⟨2, 35⟩⟩] true
          ([⟨⟨1, 5⟩, ⟨1, 7⟩⟩, ⟨⟨1, 9⟩, ⟨1, 15⟩⟩] : List Span).isEmpty) ∧
      specUnderOutcome posErrs ⟨⟨⟨1, 0⟩, ⟨3, 1⟩⟩,
          ConstructData.call ⟨1, 5⟩ [⟨⟨1, 5⟩, ⟨1, 7⟩⟩, ⟨⟨1, 9⟩, ⟨1, 15⟩⟩]
            [⟨⟨2, 4⟩, ⟨2, 20⟩⟩, ⟨⟨2, 22⟩, ⟨2, 35⟩⟩]⟩
        [⟨⟨1, 5⟩, ⟨1, 7⟩⟩, ⟨⟨1, 9⟩, ⟨1, 15⟩⟩]
        (get_nodes_by_line_number ⟨⟨1, 0⟩, ⟨3, 1⟩⟩ ⟨1, 5⟩
          [⟨⟨1, 5⟩, ⟨1, 7⟩⟩, ⟨⟨1, 9⟩, ⟨1, 15⟩⟩]
          ([⟨⟨2, 4⟩, ⟨2, 20⟩⟩, ⟨⟨2, 22⟩, ⟨2, 35⟩⟩] : List Span).isEmpty true)) :=
  ⟨by decide,
    (claim_C2 ⟨⟨1, 0⟩, ⟨3, 1⟩⟩ ⟨1, 5⟩ [⟨⟨1, 5⟩, ⟨1, 7⟩⟩, ⟨⟨1, 9⟩, ⟨1, 15⟩⟩]
      [⟨⟨2, 4⟩, ⟨2, 20⟩⟩, ⟨⟨2, 22⟩, ⟨2, 35⟩⟩]).2 (by decide)⟩

/-- C10: the visitor has no set-literal checker, so no violation is ever
reported with a set literal as its offending node: sets are traversed
transparently and only their children can be reported. -/
theorem claim_C10 (t : PyTree) : ∀ e ∈ visitAll t, isSetLit e.node.data = false := by
  intro e he
  obtain ⟨nd, hnd, he'⟩ := (mem_visitAll t e).mp he
  rw [visitOwn_node_eq nd e he']
  obtain ⟨sp, d⟩ := nd
  cases d with
  | setLit elts => simp [visitOwn] at he'
  | classDef p bases kws => rfl
  | functionDef a p po ar va kw ka re => rfl
  | call p args kws => rfl
  | dict keys values => rfl
  | ifExp pts b t2 o ip nte => rfl
  | joinedStr => rfl
  | listLit elts => rfl
  | tupleLit elts f1 l1 => rfl
  | compare left comps => rfl
  | comprehension t2 i => rfl
  | other => rfl

theorem claim_C10_witness :
    ((⟨ErrKind.under,
        ⟨⟨⟨1, 0⟩, ⟨2, 2⟩⟩,
          ConstructData.listLit [⟨⟨1, 1⟩, ⟨1, 2⟩⟩, ⟨⟨1, 4⟩, ⟨1, 5⟩⟩, ⟨⟨2, 0⟩, ⟨2, 1⟩⟩]⟩,
        [⟨1, 0⟩, ⟨1, 1⟩, ⟨1, 4⟩]⟩ : Err) ∈
      visitAll (PyTree.node ⟨⟨⟨1, 0⟩, ⟨2, 3⟩⟩,
        ConstructData.setLit [⟨⟨1, 0⟩, ⟨2, 2⟩⟩]⟩
        [PyTree.node ⟨⟨⟨1, 0⟩, ⟨2, 2⟩⟩,
          ConstructData.listLit [⟨⟨1, 1⟩, ⟨1, 2⟩⟩, ⟨⟨1, 4⟩, ⟨1, 5⟩⟩, ⟨⟨2, 0⟩, ⟨2, 1⟩⟩]⟩ []])) ∧
    isSetLit (⟨ErrKind.under,
        ⟨⟨⟨1, 0⟩, ⟨2, 2⟩⟩,
          ConstructData.listLit [⟨⟨1, 1⟩, ⟨1, 2⟩⟩, ⟨⟨1, 4⟩, ⟨1, 5⟩⟩, ⟨⟨2, 0⟩, ⟨2, 1⟩⟩]⟩,
        [⟨1, 0⟩, ⟨1, 1⟩, ⟨1, 4⟩]⟩ : Err).node.data = false :=
  ⟨by decide,
    claim_C10 (PyTree.node ⟨⟨⟨1, 0⟩, ⟨2, 3⟩⟩,
        ConstructData.setLit [⟨⟨1, 0⟩, ⟨2, 2⟩⟩]⟩
        [PyTree.node ⟨⟨⟨1, 0⟩, ⟨2, 2⟩⟩,
          ConstructData.listLit [⟨⟨1, 1⟩, ⟨1, 2⟩⟩, ⟨⟨1, 4⟩, ⟨1, 5⟩⟩, ⟨⟨2, 0⟩, ⟨2, 1⟩⟩]⟩ []])
      _ (by decide)⟩

theorem check_single_entry_hugging_iff (span : Span) (values : List Span) :
    check_single_entry_hugging span values = true ↔
      specSingleEntryHugging span values := by
  unfold check_single_entry_hugging specSingleEntryHugging
  match values with
  | [] => simp
  | [v] => simp [Bool.and_eq_true, beq_iff_eq]
  | v :: w :: rest => simp

/-- C1 as stated is false: a dict literal whose key grouping is neither
single-line nor single-column can still emit no violation, through the
single-entry hugging exception (here the dict of `value = {'foo': Bar(\n
42,\n)}`). -/
theorem claim_C1_counterexample :
    (¬ (specSingleLine (get_nodes_by_line_number ⟨⟨1, 8⟩, ⟨3, 2⟩⟩
        (⟨⟨1, 8⟩, ⟨3, 2⟩⟩ : Span).startPos
        (([some ⟨⟨1, 9⟩, ⟨1, 14⟩⟩] : List (Option Span)).filterMap id) true true) ∨
      specSingleColumn (get_nodes_by_line_number ⟨⟨1, 8⟩, ⟨3, 2⟩⟩
        (⟨⟨1, 8⟩, ⟨3, 2⟩⟩ : Span).startPos
        (([some ⟨⟨1, 9⟩, ⟨1, 14⟩⟩] : List (Option Span)).filterMap id) true true))) ∧
    visitOwn ⟨⟨⟨1, 8⟩, ⟨3, 2⟩⟩,
      ConstructData.dict [some ⟨⟨1, 9⟩, ⟨1, 14⟩⟩] [⟨⟨1, 16⟩, ⟨3, 1⟩⟩]⟩ = [] := by
  constructor
  · decide
  · decide

/-- C1 amended: for class headers, function headers, list literals, tuple
literals and conditional expressions, a violation is emitted exactly when the
line grouping built for the construct is neither single-line nor
single-column, and the violation is an Under violation whose positions are
the start positions of the elements in the bucket of the first most-crowded
line.  For dict literals the same holds except that the violation is
additionally suppressed when the single-entry hugging exception applies. -/
theorem claim_C1_amended :
    (∀ (span : Span) (p : Position) (bases kws : List Span),
      specUnderOutcome (visitOwn ⟨span, ConstructData.classDef p bases kws⟩)
        ⟨span, ConstructData.classDef p bases kws⟩ (bases ++ kws)
        (get_nodes_by_line_number span p (bases ++ kws) false true)) ∧
    (∀ (span : Span) (a : Bool) (p : Position) (po ar : List Span) (va : Option Span)
        (kw : List Span) (ka re : Option Span),
      specUnderOutcome (visitOwn ⟨span, ConstructData.functionDef a p po ar va kw ka re⟩)
        ⟨span, ConstructData.functionDef a p po ar va kw ka re⟩
        (functiondef_nodes po ar va kw ka re)
        (get_nodes_by_line_number span p (functiondef_nodes po ar va kw ka re)
          false true)) ∧
    (∀ (span : Span) (elts : List Span),
      specUnderOutcome (visitOwn ⟨span, ConstructData.listLit elts⟩)
        ⟨span, ConstructData.listLit elts⟩ elts
        (get_nodes_by_line_number span span.startPos elts true true)) ∧
    (∀ (span : Span) (elts : List Span) (f1 l1 : Bool),
      (elts ≠ [] ∨ (f1 && l1) = true) →
      specUnderOutcome (visitOwn ⟨span, ConstructData.tupleLit elts f1 l1⟩)
        ⟨span, ConstructData.tupleLit elts f1 l1⟩ elts
        (get_nodes_by_line_number span span.startPos elts (f1 && l1) (f1 && l1))) ∧
    (∀ (span : Span) (pts : Position) (b t o : Span) (ip : Bool) (nte : Position),
      specUnderOutcome (visitOwn ⟨span, ConstructData.ifExp pts b t o ip nte⟩)
        ⟨span, ConstructData.ifExp pts b t o ip nte⟩ [b, t, o]
        (ifexp_by_line_no span pts b t o ip nte)) ∧
    (∀ (span : Span) (keys : List (Option Span)) (values : List Span),
      ((specSingleLine (get_nodes_by_line_number span span.startPos
          (keys.filterMap id) true true) ∨
        specSingleColumn (get_nodes_by_line_number span span.startPos
          (keys.filterMap id) true true)) →
        visitOwn ⟨span, ConstructData.dict keys values⟩ = []) ∧
      (¬ (specSingleLine (get_nodes_by_line_number span span.startPos
          (keys.filterMap id) true true) ∨
        specSingleColumn (get_nodes_by_line_number span span.startPos
          (keys.filterMap id) true true)) →
        (specSingleEntryHugging span values →
          visitOwn ⟨span, ConstructData.dict keys values⟩ = []) ∧
        (¬ specSingleEntryHugging span values →
          ∃ l, specFirstMostCrowded (get_nodes_by_line_number span span.startPos
            (keys.filterMap id) true true) l ∧
            visitOwn ⟨span, ConstructData.dict keys values⟩ =
              [⟨ErrKind.under, ⟨span, ConstructData.dict keys values⟩,
                (bucketAt (get_nodes_by_line_number span span.startPos
                  (keys.filterMap id) true true) l).map
                  (startOfElem span (keys.filterMap id))⟩]))) := by
  refine ⟨?_, ?_, ?_, ?_, ?_, ?_⟩
  · intro span p bases kws
    exact check_under_wrapping_spec ⟨span, ConstructData.classDef p bases kws⟩ p
      (bases ++ kws) false true (grouper_ne_nil _ _ _ _ _ (Or.inl rfl))
  · intro span a p po ar va kw ka re
    exact check_under_wrapping_spec ⟨span, ConstructData.functionDef a p po ar va kw ka re⟩
      p (functiondef_nodes po ar va kw ka re) false true
      (grouper_ne_nil _ _ _ _ _ (Or.inl rfl))
  · intro span elts
    exact check_under_wrapping_spec ⟨span, ConstructData.listLit elts⟩ span.startPos
      elts true true (grouper_ne_nil _ _ _ _ _ (Or.inl rfl))
  · intro span elts f1 l1 hor
    cases hpp : f1 && l1
    · have helts : elts ≠ [] := by
        rcases hor with h | h
        · exact h
        · rw [hpp] at h
          exact absurd h (by decide)
      have hv : visitOwn ⟨span, ConstructData.tupleLit elts f1 l1⟩ =
          check_under_wrapping ⟨span, ConstructData.tupleLit elts f1 l1⟩
            span.startPos elts false false := by
        simp only [visitOwn, hpp]
      rw [hv]
      exact check_under_wrapping_spec ⟨span, ConstructData.tupleLit elts f1 l1⟩
        span.startPos elts false false
        (grouper_ne_nil _ _ _ _ _ (Or.inr (Or.inl helts)))
    · have hv : visitOwn ⟨span, ConstructData.tupleLit elts f1 l1⟩ =
          check_under_wrapping ⟨span, ConstructData.tupleLit elts f1 l1⟩
            span.startPos elts true true := by
        simp only [visitOwn, hpp]
      rw [hv]
      exact check_under_wrapping_spec ⟨span, ConstructData.tupleLit elts f1 l1⟩
        span.startPos elts true true (grouper_ne_nil _ _ _ _ _ (Or.inl rfl))
  · intro span pts b t o ip nte
    have hne := ifexp_group_ne_nil span pts b t o ip nte
    have hiff := summary_slc_iff _ hne (ifexp_group_nodup_keys span pts b t o ip nte)
      (ifexp_group_snd_ne_nil span pts b t o ip nte)
    constructor
    · intro h
      simp only [visitOwn]
      rw [if_pos (hiff.mpr h)]
    · intro h
      refine ⟨(summarise_lines (ifexp_by_line_no span pts b t o ip nte)).most_common_line_number,
        most_common_line_spec _ hne, ?_⟩
      simp only [visitOwn]
      rw [if_neg (fun hc => h (hiff.mp hc))]
      rfl
  · intro span keys values
    have hne := grouper_ne_nil span span.startPos (keys.filterMap id) true true
      (Or.inl rfl)
    have hiff := summary_slc_iff _ hne (grouper_nodup_keys _ _ _ _ _)
      (grouper_snd_ne_nil _ _ _ _ _)
    constructor
    · intro h
      simp only [visitOwn]
      rw [if_pos (hiff.mpr h)]
    · intro h
      constructor
      · intro hhug
        simp only [visitOwn]
        rw [if_neg (fun hc => h (hiff.mp hc)),
          if_pos ((check_single_entry_hugging_iff span values).mpr hhug)]
      · intro hhug
        refine ⟨(summarise_lines (get_nodes_by_line_number span span.startPos
            (keys.filterMap id) true true)).most_common_line_number,
          most_common_line_spec _ hne, ?_⟩
        simp only [visitOwn]
        rw [if_neg (fun hc => h (hiff.mp hc)),
          if_neg (fun hc => hhug ((check_single_entry_hugging_iff span values).mp hc))]
        rfl

theorem claim_C1_witness :
    (([⟨⟨1, 1⟩, ⟨1, 2⟩⟩, ⟨⟨1, 4⟩, ⟨1, 5⟩⟩, ⟨⟨2, 0⟩, ⟨2, 1⟩⟩] : List Span) ≠ [] ∨
      (false && false) = true) ∧
    specUnderOutcome
      (visitOwn ⟨⟨⟨1, 2⟩, ⟨2, 1⟩⟩,
        ConstructData.tupleLit
          [⟨⟨1, 1⟩, ⟨1, 2⟩⟩, ⟨⟨1, 4⟩, ⟨1, 5⟩⟩, ⟨⟨2, 0⟩, ⟨2, 1⟩⟩] false false⟩)
      ⟨⟨⟨1, 2⟩, ⟨2, 1⟩⟩,
        ConstructData.tupleLit
          [⟨⟨1, 1⟩, ⟨1, 2⟩⟩, ⟨⟨1, 4⟩, ⟨1, 5⟩⟩, ⟨⟨2, 0⟩, ⟨2, 1⟩⟩] false false⟩
      [⟨⟨1, 1⟩, ⟨1, 2⟩⟩, ⟨⟨1, 4⟩, ⟨1, 5⟩⟩, ⟨⟨2, 0⟩, ⟨2, 1⟩⟩]
      (get_nodes_by_line_number ⟨⟨1, 2⟩, ⟨2, 1⟩⟩ (⟨⟨1, 2⟩, ⟨2, 1⟩⟩ : Span).startPos
        [⟨⟨1, 1⟩, ⟨1, 2⟩⟩, ⟨⟨1, 4⟩, ⟨1, 5⟩⟩, ⟨⟨2, 0⟩, ⟨2, 1⟩⟩]
        (false && false) (false && false)) :=
  ⟨Or.inl (by decide),
    claim_C1_amended.2.2.2.1 ⟨⟨1, 2⟩, ⟨2, 1⟩⟩
      [⟨⟨1, 1⟩, ⟨1, 2⟩⟩, ⟨⟨1, 4⟩, ⟨1, 5⟩⟩, ⟨⟨2, 0⟩, ⟨2, 1⟩⟩] false false
      (Or.inl (by decide))⟩

/-- C7: on well-formed trees the analysis is total and its internal
assertions are unreachable: every emitted violation carries a non-empty
positions list, and every line grouping a checker hands to the summariser is
non-empty. -/
theorem claim_C7 (t : PyTree) (hwf : treeWF t) :
    (∀ e ∈ visitAll t, e.positions ≠ []) ∧
    (∀ nd ∈ visitedNodes t, ∀ g ∈ summarisedGroups nd, g ≠ []) := by
  constructor
  · intro e he
    obtain ⟨nd, hnd, he'⟩ := (mem_visitAll t e).mp he
    exact visitOwn_positions_ne_nil nd (hwf nd hnd) e he'
  · intro nd hnd g hg
    exact summarisedGroups_ne_nil nd (hwf nd hnd) g hg

theorem claim_C7_witness :
    treeWF (PyTree.node ⟨⟨⟨1, 0⟩, ⟨2, 3⟩⟩, ConstructData.other⟩
      [PyTree.node ⟨⟨⟨1, 0⟩, ⟨2, 2⟩⟩,
        ConstructData.listLit [⟨⟨1, 1⟩, ⟨1, 2⟩⟩, ⟨⟨1, 4⟩, ⟨1, 5⟩⟩, ⟨⟨2, 0⟩, ⟨2, 1⟩⟩]⟩ []]) ∧
    ((∀ e ∈ visitAll (PyTree.node ⟨⟨⟨1, 0⟩, ⟨2, 3⟩⟩, ConstructData.other⟩
      [PyTree.node ⟨⟨⟨1, 0⟩, ⟨2, 2⟩⟩,
        ConstructData.listLit [⟨⟨1, 1⟩, ⟨1, 2⟩⟩, ⟨⟨1, 4⟩, ⟨1, 5⟩⟩, ⟨⟨2, 0⟩, ⟨2, 1⟩⟩]⟩ []]),
      e.positions ≠ []) ∧
    (∀ nd ∈ visitedNodes (PyTree.node ⟨⟨⟨1, 0⟩, ⟨2, 3⟩⟩, ConstructData.other⟩
      [PyTree.node ⟨⟨⟨1, 0⟩, ⟨2, 2⟩⟩,
        ConstructData.listLit [⟨⟨1, 1⟩, ⟨1, 2⟩⟩, ⟨⟨1, 4⟩, ⟨1, 5⟩⟩, ⟨⟨2, 0⟩, ⟨2, 1⟩⟩]⟩ []]),
      ∀ g ∈ summarisedGroups nd, g ≠ [])) :=
  ⟨by decide,
    claim_C7 (PyTree.node ⟨⟨⟨1, 0⟩, ⟨2, 3⟩⟩, ConstructData.other⟩
      [PyTree.node ⟨⟨⟨1, 0⟩, ⟨2, 2⟩⟩,
        ConstructData.listLit [⟨⟨1, 1⟩, ⟨1, 2⟩⟩, ⟨⟨1, 4⟩, ⟨1, 5⟩⟩, ⟨⟨2, 0⟩, ⟨2, 1⟩⟩]⟩ []])
      (by decide)⟩

/-- C8: every emitted violation's message is exactly the BWR001 format with
the count of positions carried by the violation for under-wrapping, and
exactly the BWR002 format with the number of distinct lines among the
violation's positions for over-wrapping, the construct name being the node's
kind label. -/
theorem claim_C8 (t : PyTree) : ∀ e ∈ visitAll t,
    (e.kind = ErrKind.under →
      str_error e = "BWR001 " ++ constructName e.node.data ++ " is wrapped badly - " ++
        toString e.positions.length ++ " elements on the same line") ∧
    (e.kind = ErrKind.over →
      str_error e = "BWR002 " ++ constructName e.node.data ++
        " is wrapped unexpectedly over " ++
        toString (e.positions.map Position.line).toFinset.card ++ " lines") := by
  intro e he
  constructor
  · intro hk
    simp [str_error, hk]
  · intro hk
    simp only [str_error, hk]
    rw [List.card_toFinset]

theorem claim_C8_witness :
    ((⟨ErrKind.over,
        ⟨⟨⟨3, 4⟩, ⟨4, 18⟩⟩,
          ConstructData.comprehension ⟨⟨3, 8⟩, ⟨3, 9⟩⟩ ⟨⟨4, 7⟩, ⟨4, 18⟩⟩⟩,
        [⟨3, 8⟩, ⟨4, 7⟩]⟩ : Err) ∈
      visitAll (PyTree.node ⟨⟨⟨3, 4⟩, ⟨4, 18⟩⟩,
        ConstructData.comprehension ⟨⟨3, 8⟩, ⟨3, 9⟩⟩ ⟨⟨4, 7⟩, ⟨4, 18⟩⟩⟩ [])) ∧
    ((⟨ErrKind.over,
        ⟨⟨⟨3, 4⟩, ⟨4, 18⟩⟩,
          ConstructData.comprehension ⟨⟨3, 8⟩, ⟨3, 9⟩⟩ ⟨⟨4, 7⟩, ⟨4, 18⟩⟩⟩,
        [⟨3, 8⟩, ⟨4, 7⟩]⟩ : Err).kind = ErrKind.over →
      str_error (⟨ErrKind.over,
        ⟨⟨⟨3, 4⟩, ⟨4, 18⟩⟩,
          ConstructData.comprehension ⟨⟨3, 8⟩, ⟨3, 9⟩⟩ ⟨⟨4, 7⟩, ⟨4, 18⟩⟩⟩,
        [⟨3, 8⟩, ⟨4, 7⟩]⟩ : Err) =
        "BWR002 " ++ constructName (⟨ErrKind.over,
          ⟨⟨⟨3, 4⟩, ⟨4, 18⟩⟩,
            ConstructData.comprehension ⟨⟨3, 8⟩, ⟨3, 9⟩⟩ ⟨⟨4, 7⟩, ⟨4, 18⟩⟩⟩,
          [⟨3, 8⟩, ⟨4, 7⟩]⟩ : Err).node.data ++
          " is wrapped unexpectedly over " ++
          toString ((⟨ErrKind.over,
            ⟨⟨⟨3, 4⟩, ⟨4, 18⟩⟩,
              ConstructData.comprehension ⟨⟨3, 8⟩, ⟨3, 9⟩⟩ ⟨⟨4, 7⟩, ⟨4, 18⟩⟩⟩,
            [⟨3, 8⟩, ⟨4, 7⟩]⟩ : Err).positions.map Position.line).toFinset.card ++
          " lines") :=
  ⟨by decide,
    (claim_C8 (PyTree.node ⟨⟨⟨3, 4⟩, ⟨4, 18⟩⟩,
        ConstructData.comprehension ⟨⟨3, 8⟩, ⟨3, 9⟩⟩ ⟨⟨4, 7⟩, ⟨4, 18⟩⟩⟩ []) _
      (by decide)).2⟩

end BalancedWrapping
